import Mathlib

/-!
# NotifyByPopup: the freedesktop.org notification backend of KNotifications

A shallow embedding of `src/notifybypopup.cpp`.

* A `KNotification*` is an address (`Ptr`); the object behind it is read through
  `World.obj` at the moment the code dereferences the pointer.
* `NotifyByPopupPrivate` becomes the record `State`; every member function is a
  function from the state before the call to the state after it together with
  the list of observable effects (wire calls and emitted signals) in the order
  the code produces them.
* The two D-Bus reply lambdas (for `GetCapabilities` and for `Notify`) are the
  functions `onCapabilitiesReply` and `onNotifyReply`.
* Logging (`qCDebug`, `qCWarning`) is not an effect of the model.
-/

namespace NotifyByPopup

/-! ## Data model -/

/-- Address of a `KNotification` object; pointer comparison is equality of addresses. -/
abbrev Ptr := Nat

/-- Enumeration `KNotification::Urgency`. -/
inductive Urgency where
  | DefaultUrgency
  | LowUrgency
  | NormalUrgency
  | HighUrgency
  | CriticalUrgency
deriving DecidableEq, Repr

/-- Value kinds of `QVariant` that this file stores in a hint map. -/
inductive QVariant where
  | str (s : String)
  | int (i : Int)
  | bool (b : Bool)
  | image (data : List Nat)
deriving DecidableEq, Repr

/-- Model of `QVariantMap`: an association list with at most one entry per key
that is written with `QVariantMap.set` and read with `QVariantMap.get`. The
sorted iteration order of `QMap` is not modelled. -/
abbrev QVariantMap := List (String × QVariant)

/-- Assignment `map[key] = value`: replaces the value of an existing key, adds the key otherwise. -/
def QVariantMap.set : QVariantMap → String → QVariant → QVariantMap
  | [], k, v => [(k, v)]
  | (k0, v0) :: rest, k, v =>
    if k0 = k then (k0, v) :: rest else (k0, v0) :: QVariantMap.set rest k v

/-- Lookup of a key in a hint map. -/
def QVariantMap.get : QVariantMap → String → Option QVariant
  | [], _ => none
  | (k0, v0) :: rest, k => if k0 = k then some v0 else QVariantMap.get rest k

/-- The getters of `KNotification` that the backend reads. The two flag fields are
the results of the bit tests `flags() & KNotification::SkipGrouping` and
`flags() & KNotification::Persistent`; `pixmap = none` is a null pixmap, otherwise
it carries the PNG bytes. -/
structure KNotification where
  id : Int
  title : String
  text : String
  iconName : String
  appName : String
  eventId : String
  defaultAction : String
  actions : List String
  skipGrouping : Bool
  persistent : Bool
  urgency : Urgency
  hints : QVariantMap
  pixmap : Option (List Nat)
deriving DecidableEq, Repr

/-- The part of `KNotifyConfig` read by `getAppCaptionAndIconName`: the
application name, the event id and the entries of the events file, `none` for an
entry that is absent. `globalName`, `globalComment` and `globalIconName` are the
entries `Name`, `Comment` and `IconName` of group `Global`; `eventIconName` is the
entry `IconName` of group `Event/<eventid>`. -/
structure KNotifyConfig where
  appname : String
  eventid : String
  globalName : Option String
  globalComment : Option String
  globalIconName : Option String
  eventIconName : Option String
deriving DecidableEq, Repr

/-- The surroundings that the backend only reads: the heap of notification
objects and the library services it calls (`KNotificationPlugin::stripRichText`,
`QGuiApplication::desktopFileName`, `ImageConverter::variantForImage` applied to
the decoded PNG, and `QString::toInt`, which is `none` when the conversion
fails). -/
structure World where
  obj : Ptr → KNotification
  stripRichText : String → String
  desktopFileName : String
  variantForImage : List Nat → QVariant
  toInt : String → Option Int

/-- Model of `QHash<uint, QPointer<KNotification>>`: an association list from
daemon handles to guarded pointers, `none` being a `QPointer` whose object has
been destroyed. The order of the list stands for the (unspecified) iteration
order of the hash. -/
abbrev HandleTable := List (Nat × Option Ptr)

/-- Method `QHash::contains`. -/
def HandleTable.contains (t : HandleTable) (k : Nat) : Bool :=
  t.any (fun e => e.1 == k)

/-- Method `QHash::find`, `none` standing for `end()`. -/
def HandleTable.find (t : HandleTable) (k : Nat) : Option (Option Ptr) :=
  (List.find? (fun e => e.1 == k) t).map Prod.snd

/-- Method `QHash::key(value, defaultKey)`: the first key, in iteration order, whose
guarded pointer equals `value`. -/
def HandleTable.key (t : HandleTable) (value : Ptr) (defaultKey : Nat) : Nat :=
  match List.find? (fun e => e.2 == some value) t with
  | some e => e.1
  | none => defaultKey

/-- Method `QHash::remove` (and `QHash::erase` at the position of key `k`). -/
def HandleTable.remove (t : HandleTable) (k : Nat) : HandleTable :=
  t.filter (fun e => e.1 != k)

/-- Method `QHash::insert`: the value of an existing key is replaced. -/
def HandleTable.insert (t : HandleTable) (k : Nat) (v : Option Ptr) : HandleTable :=
  (k, v) :: HandleTable.remove t k

/-- The members of `NotifyByPopupPrivate`. -/
structure State where
  popupServerCapabilities : List String
  notificationQueue : List (Ptr × KNotifyConfig)
  dbusServiceCapCacheDirty : Bool
  notifications : HandleTable
deriving DecidableEq, Repr

/-- The positional arguments of the wire call `Notify`. -/
structure NotifyArgs where
  appCaption : String
  updateId : Nat
  iconName : String
  title : String
  text : String
  actionList : List String
  hintsMap : QVariantMap
  timeout : Int
deriving DecidableEq, Repr

/-- Observable effects. `getCapabilities`, `notifyCall` and `closeNotification` are
calls on the D-Bus interface; `notifyCall` also records the notification captured
by the reply watcher it creates. `finished` and `actionInvoked` are the signals of
the plugin, `closeRequest n` is the call `n->close()`. -/
inductive Effect where
  | getCapabilities
  | notifyCall (notification : Ptr) (args : NotifyArgs)
  | closeNotification (id : Nat)
  | finished (notification : Ptr)
  | actionInvoked (id : Int) (actionIndex : Int)
  | closeRequest (notification : Ptr)
deriving DecidableEq, Repr

/-- Whether an effect is a call on the D-Bus interface. -/
def Effect.isWire : Effect → Bool
  | .getCapabilities => true
  | .notifyCall _ _ => true
  | .closeNotification _ => true
  | _ => false

/-- The wire calls among a list of effects, in order. -/
def wireTrace (es : List Effect) : List Effect :=
  es.filter Effect.isWire

/-- Whether an effect is a `Notify` wire call issued for notification `r`. -/
def Effect.isNotifyFor (r : Ptr) : Effect → Bool
  | .notifyCall n _ => n == r
  | _ => false

/-- Implicit conversion of an `int` to `uint` (32 bit). -/
def toUInt (i : Int) : Nat :=
  (i % 4294967296).toNat

/-- The state set up by the constructor: the capability cache is dirty, the
queue and the handle table are empty. -/
def State.init : State :=
  { popupServerCapabilities := []
    notificationQueue := []
    dbusServiceCapCacheDirty := true
    notifications := [] }

/-! ## Operations -/

/-- Modelled from the spec: `KNotificationPlugin::finish` is declared outside
this file; it signals completion of the notification to the caller. -/
def finish (notification : Ptr) : List Effect :=
  [Effect.finished notification]

/-- Function `NotifyByPopupPrivate::getAppCaptionAndIconName`: caption and icon name. -/
def getAppCaptionAndIconName (c : KNotifyConfig) : String × String :=
  let appCaption := c.globalName.getD (c.globalComment.getD c.appname)
  let iconName :=
    match c.eventIconName with
    | some i => i
    | none => c.globalIconName.getD c.appname
  (appCaption, iconName)

/-- The loop over `notification->actions()`: `actId` is incremented before use. -/
def numberedActions : Nat → List String → List String
  | _, [] => []
  | actId, actionName :: rest =>
    Nat.repr (actId + 1) :: actionName :: numberedActions (actId + 1) rest

/-- The flattened action list of `sendNotificationToServer`. -/
def buildActionList (caps : List String) (n : KNotification) : List String :=
  if caps.contains "actions" then
    (if n.defaultAction ≠ "" then ["default", n.defaultAction] else [])
      ++ numberedActions 0 n.actions
  else []

/-- Test `QString::endsWith`. -/
def endsWith (s suffix : String) : Bool :=
  suffix.data.isSuffixOf s.data

/-- Method `QString::chop`: removes the last `k` characters. -/
def chop (s : String) (k : Nat) : String :=
  String.mk (s.data.take (s.data.length - k))

/-- The urgency switch: `-1` stands for no urgency hint. -/
def urgencyValue : Urgency → Int
  | .DefaultUrgency => -1
  | .LowUrgency => 0
  | .NormalUrgency => 1
  | .HighUrgency => 1
  | .CriticalUrgency => 2

/-- The hint map of `sendNotificationToServer`, built in the order of the source. -/
def buildHints (w : World) (n : KNotification) : QVariantMap :=
  let h0 : QVariantMap := []
  let h1 := if n.appName ≠ "" then h0.set "x-kde-appname" (.str n.appName) else h0
  let h2 := if n.eventId ≠ "" then h1.set "x-kde-eventId" (.str n.eventId) else h1
  let h3 := if n.skipGrouping then h2.set "x-kde-skipGrouping" (.int 1) else h2
  let h4 := if !n.persistent then h3.set "transient" (.bool true) else h3
  let h5 :=
    if w.desktopFileName ≠ "" then
      h4.set "desktop-entry"
        (.str (if endsWith w.desktopFileName ".desktop" then chop w.desktopFileName 8
               else w.desktopFileName))
    else h4
  let urgency := urgencyValue n.urgency
  let h6 := if urgency > -1 then h5.set "urgency" (.int urgency) else h5
  let h7 := n.hints.foldl (fun m kv => m.set kv.1 kv.2) h6
  match n.pixmap with
  | some px => h7.set "image_data" (w.variantForImage px)
  | none => h7

/-- The argument tuple of the `Notify` call of `sendNotificationToServer`. -/
def buildNotifyArgs (w : World) (caps : List String) (updateId : Nat)
    (n : KNotification) (c : KNotifyConfig) : NotifyArgs :=
  let (appCaption, iconName0) := getAppCaptionAndIconName c
  let iconName := if n.iconName ≠ "" then n.iconName else iconName0
  let title0 := if n.title = "" then appCaption else n.title
  let text0 := n.text
  let markup := caps.contains "body-markup"
  { appCaption := appCaption
    updateId := updateId
    iconName := iconName
    title := if !markup then w.stripRichText title0 else title0
    text := if !markup then w.stripRichText text0 else text0
    actionList := buildActionList caps n
    hintsMap := buildHints w n
    timeout := if n.persistent then 0 else -1 }

/-- Function `NotifyByPopupPrivate::sendNotificationToServer`: the return value and
the effects. The state is not changed by the call itself; the handle is
registered later, by `onNotifyReply`. -/
def sendNotificationToServer (w : World) (s : State) (notification : Ptr)
    (c : KNotifyConfig) (update : Bool) : Bool × List Effect :=
  let updateId := s.notifications.key notification 0
  if update && updateId == 0 then
    (false, [])
  else
    (true, [Effect.notifyCall notification
      (buildNotifyArgs w s.popupServerCapabilities updateId (w.obj notification) c)])

/-- The reply lambda of the `Notify` call issued for `notification`. -/
def onNotifyReply (s : State) (handle : Nat) (notification : Ptr) : State :=
  { s with notifications := s.notifications.insert handle (some notification) }

/-- Function `NotifyByPopupPrivate::queryPopupServerCapabilities`, up to the creation
of the reply watcher. -/
def queryPopupServerCapabilities (s : State) : State × List Effect :=
  if !s.dbusServiceCapCacheDirty then (s, [])
  else (s, [Effect.getCapabilities])

/-- Function `NotifyByPopup::notify`. -/
def notify (w : World) (s : State) (notification : Ptr) (c : KNotifyConfig) :
    State × List Effect :=
  if s.notifications.contains (toUInt (w.obj notification).id) then
    (s, finish notification)
  else if s.dbusServiceCapCacheDirty then
    queryPopupServerCapabilities
      { s with notificationQueue := s.notificationQueue ++ [(notification, c)] }
  else
    let r := sendNotificationToServer w s notification c false
    if !r.1 then (s, r.2 ++ finish notification) else (s, r.2)

/-- Function `NotifyByPopup::update`. -/
def update (w : World) (s : State) (notification : Ptr) (c : KNotifyConfig) :
    State × List Effect :=
  (s, (sendNotificationToServer w s notification c true).2)

/-- Function `NotifyByPopup::close`. -/
def close (s : State) (notification : Ptr) : State × List Effect :=
  let id := s.notifications.key notification 0
  if id == 0 then (s, [])
  else
    ({ s with notificationQueue := s.notificationQueue.filter (fun item => item.1 != notification) },
     [Effect.closeNotification id])

/-- Function `NotifyByPopup::onNotificationActionInvoked`. -/
def onNotificationActionInvoked (w : World) (s : State) (notificationId : Nat)
    (actionKey : String) : State × List Effect :=
  match s.notifications.find notificationId with
  | none => (s, [])
  | some (some n) =>
    if actionKey = "default" ∧ (w.obj n).defaultAction ≠ "" then
      (s, [Effect.actionInvoked (w.obj n).id 0])
    else
      let actionIndex := (w.toInt actionKey).getD 0
      (s, [Effect.actionInvoked (w.obj n).id actionIndex])
  | some none =>
    ({ s with notifications := s.notifications.remove notificationId }, [])

/-- Function `NotifyByPopup::onNotificationClosed`. -/
def onNotificationClosed (s : State) (dbus_id : Nat) (reason : Nat) : State × List Effect :=
  match s.notifications.find dbus_id with
  | none => (s, [])
  | some n =>
    let s1 := { s with notifications := s.notifications.remove dbus_id }
    match n with
    | some p => (s1, Effect.finished p :: (if reason = 2 then [Effect.closeRequest p] else []))
    | none => (s1, [])

/-- Successive calls of `notify`, one per entry and in the order of the list, as in
the loop of the capability reply lambda. -/
def notifyEach (w : World) : State → List (Ptr × KNotifyConfig) → State × List Effect
  | s, [] => (s, [])
  | s, noti :: rest =>
    let r1 := notify w s noti.1 noti.2
    let r2 := notifyEach w r1.1 rest
    (r2.1, r1.2 ++ r2.2)

/-- The reply lambda of `GetCapabilities` in `queryPopupServerCapabilities`. -/
def onCapabilitiesReply (w : World) (s : State) (capabilities : List String) :
    State × List Effect :=
  let s1 := { s with popupServerCapabilities := capabilities, dbusServiceCapCacheDirty := false }
  let r := notifyEach w s1 s1.notificationQueue
  ({ r.1 with notificationQueue := [] }, r.2)

/-! ## Runs of the dispatcher against the daemon -/

/-- The watcher created by a `Notify` call: the captured notification and the
replace handle that was sent. -/
def Effect.watcher : Effect → Option (Ptr × Nat)
  | .notifyCall n args => some (n, args.updateId)
  | _ => none

/-- The dispatcher together with the calls that still await their reply:
`pendingCaps` counts the outstanding `GetCapabilities` calls, `pendingNotify`
lists the outstanding `Notify` calls in the order of issue, `usedHandles` are the
handles the daemon has handed out, `trace` is every effect so far. -/
structure Sys where
  st : State
  pendingCaps : Nat
  pendingNotify : List (Ptr × Nat)
  usedHandles : List Nat
  trace : List Effect
deriving DecidableEq, Repr

/-- The system right after construction. -/
def Sys.init : Sys :=
  { st := State.init, pendingCaps := 0, pendingNotify := [], usedHandles := [], trace := [] }

/-- What can happen to the dispatcher: a call of the framework, a reply of the
daemon or a signal of the daemon. `notifyReply call handle` answers the
outstanding `Notify` call at position `call` with `handle`. -/
inductive Event where
  | notify (n : Ptr) (c : KNotifyConfig)
  | update (n : Ptr) (c : KNotifyConfig)
  | close (n : Ptr)
  | capabilitiesReply (capabilities : List String)
  | notifyReply (call : Nat) (handle : Nat)
  | actionInvoked (handle : Nat) (actionKey : String)
  | notificationClosed (handle : Nat) (reason : Nat)
deriving DecidableEq, Repr

/-- Records the result of an operation: the new state, the effects and the reply
watchers the effects created. -/
def Sys.absorb (y : Sys) (r : State × List Effect) : Sys :=
  { st := r.1
    pendingCaps := y.pendingCaps + r.2.count Effect.getCapabilities
    pendingNotify := y.pendingNotify ++ r.2.filterMap Effect.watcher
    usedHandles := y.usedHandles
    trace := y.trace ++ r.2 }

/-- One event. A reply is enabled only for a call that is outstanding, and a
`Notify` reply carries a handle that is not zero and was never handed out before. -/
def step (w : World) (y : Sys) : Event → Option Sys
  | .notify n c => some (y.absorb (notify w y.st n c))
  | .update n c => some (y.absorb (update w y.st n c))
  | .close n => some (y.absorb (close y.st n))
  | .capabilitiesReply capabilities =>
    if y.pendingCaps = 0 then none
    else some (Sys.absorb { y with pendingCaps := y.pendingCaps - 1 }
      (onCapabilitiesReply w y.st capabilities))
  | .notifyReply call handle =>
    if handle = 0 ∨ handle ∈ y.usedHandles then none
    else
      match y.pendingNotify.get? call with
      | none => none
      | some p =>
        some { y with
          st := onNotifyReply y.st handle p.1
          pendingNotify := y.pendingNotify.eraseIdx call
          usedHandles := handle :: y.usedHandles }
  | .actionInvoked handle actionKey =>
    some (y.absorb (onNotificationActionInvoked w y.st handle actionKey))
  | .notificationClosed handle reason =>
    some (y.absorb (onNotificationClosed y.st handle reason))

/-- A sequence of events, `none` when one of them is not enabled. -/
def run (w : World) : Sys → List Event → Option Sys
  | y, [] => some y
  | y, e :: es =>
    match step w y e with
    | none => none
    | some y1 => run w y1 es

/-- One event with the replies restricted as little as possible: a `Notify` reply
answers an outstanding `Notify` call and may carry any handle (zero, a handle
handed out before, the replaced handle of an update); a capability reply is
processed whenever it is delivered. The other events are as in `step`. -/
def stepAnyHandle (w : World) (y : Sys) : Event → Option Sys
  | .notify n c => some (y.absorb (notify w y.st n c))
  | .update n c => some (y.absorb (update w y.st n c))
  | .close n => some (y.absorb (close y.st n))
  | .capabilitiesReply capabilities =>
    some (Sys.absorb { y with pendingCaps := y.pendingCaps - 1 }
      (onCapabilitiesReply w y.st capabilities))
  | .notifyReply call handle =>
    match y.pendingNotify.get? call with
    | none => none
    | some p =>
      some { y with
        st := onNotifyReply y.st handle p.1
        pendingNotify := y.pendingNotify.eraseIdx call
        usedHandles := handle :: y.usedHandles }
  | .actionInvoked handle actionKey =>
    some (y.absorb (onNotificationActionInvoked w y.st handle actionKey))
  | .notificationClosed handle reason =>
    some (y.absorb (onNotificationClosed y.st handle reason))

/-- A sequence of events under `stepAnyHandle`, `none` when a `Notify` reply has no
outstanding call to answer. -/
def runAnyHandle (w : World) : Sys → List Event → Option Sys
  | y, [] => some y
  | y, e :: es =>
    match stepAnyHandle w y e with
    | none => none
    | some y1 => runAnyHandle w y1 es

/-- Number of handles of the table that map to notification `r`. -/
def handlesOf (t : HandleTable) (r : Ptr) : Nat :=
  t.countP (fun e => e.2 == some r)

/-- Number of outstanding `Notify` calls whose watcher captured notification `r`. -/
def pendingFor (p : List (Ptr × Nat)) (r : Ptr) : Nat :=
  p.countP (fun c => c.1 == r)

/-- Number of `Notify` wire calls issued for notification `r`. -/
def issuedFor (es : List Effect) (r : Ptr) : Nat :=
  es.countP (Effect.isNotifyFor r)

/-- Every handle of `r` and every outstanding `Notify` call for `r` is accounted for
by a `Notify` call issued for `r`. -/
def Accounted (y : Sys) : Prop :=
  ∀ r : Ptr,
    handlesOf y.st.notifications r + pendingFor y.pendingNotify r ≤ issuedFor y.trace r

/-- As long as the capability cache is dirty, the handle table is empty, no `Notify`
call awaits its reply and no `Notify` call has been issued. -/
def Quiet (y : Sys) : Prop :=
  y.st.dbusServiceCapCacheDirty = true →
    y.st.notifications = [] ∧ y.pendingNotify = [] ∧
      ∀ (n : Ptr) (args : NotifyArgs), Effect.notifyCall n args ∉ y.trace

/-! ## A sample world -/

/-- Value of a string of decimal digits. -/
def parseDigits : List Char → Nat → Option Nat
  | [], acc => some acc
  | c :: cs, acc => if c.isDigit then parseDigits cs (10 * acc + (c.toNat - 48)) else none

/-- A decimal parser for the sample world: an optional minus sign and digits. -/
def sampleToInt (s : String) : Option Int :=
  match s.data with
  | [] => none
  | ['-'] => none
  | '-' :: ds => (parseDigits ds 0).map (fun v => - (v : Int))
  | ds => (parseDigits ds 0).map (fun v => (v : Int))

/-- A notification with default action Open and actions Ignore and Snooze. -/
def sampleNotification (id : Int) : KNotification :=
  { id := id, title := "Title", text := "Text", iconName := "", appName := "app"
    eventId := "event", defaultAction := "Open", actions := ["Ignore", "Snooze"]
    skipGrouping := false, persistent := false, urgency := Urgency.NormalUrgency
    hints := [], pixmap := none }

/-- A world in which the notification at address `p` has id `p`. -/
def sampleWorld : World :=
  { obj := fun p => sampleNotification (p : Int)
    stripRichText := fun s => s
    desktopFileName := "org.app.Foo.desktop"
    variantForImage := QVariant.image
    toInt := sampleToInt }

/-- A display configuration without entries in the events file. -/
def sampleConfig : KNotifyConfig :=
  { appname := "app", eventid := "event", globalName := none, globalComment := none
    globalIconName := none, eventIconName := none }

/-- A clean state in which notification `1` (whose id is `1`) is on screen under
daemon handle `5`. -/
def liveState : State :=
  { popupServerCapabilities := ["actions"]
    notificationQueue := []
    dbusServiceCapCacheDirty := false
    notifications := [(5, some 1)] }

/-- The state `liveState` with three entries in the queue, two of them for
notification `1`. -/
def liveQueuedState : State :=
  { liveState with
    notificationQueue := [(1, sampleConfig), (2, sampleConfig), (1, sampleConfig)] }

/-- The system after `notify` for notification `1`, the capability reply and the
`Notify` reply with handle `5`. -/
def liveSys : Sys :=
  { st := liveState, pendingCaps := 0, pendingNotify := [], usedHandles := [5]
    trace := [Effect.getCapabilities,
      Effect.notifyCall 1
        (buildNotifyArgs sampleWorld ["actions"] 0 (sampleNotification 1) sampleConfig)] }

/-- The sample world with another desktop file name. -/
def worldWithDesktopFile (f : String) : World :=
  { sampleWorld with desktopFileName := f }

/-- A notification of normal urgency whose own hint bag sets "urgency" and a key
the dispatcher does not compute. -/
def sampleNotificationWithBag : KNotification :=
  { sampleNotification 1 with
    hints := [("urgency", QVariant.int 2), ("x-custom", QVariant.str "v")] }

/-! ## Basic facts about `notify` -/

/-- With a clean cache `notify` leaves the state alone and either signals completion
(the id is a key of the handle table) or issues one `Notify` call. -/
theorem notify_clean (w : World) (s : State) (n : Ptr) (c : KNotifyConfig)
    (hc : s.dbusServiceCapCacheDirty = false) :
    notify w s n c =
      (s, if s.notifications.contains (toUInt (w.obj n).id) then [Effect.finished n]
          else [Effect.notifyCall n (buildNotifyArgs w s.popupServerCapabilities
                  (s.notifications.key n 0) (w.obj n) c)]) := by
  unfold notify sendNotificationToServer finish
  split
  · rfl
  · simp [hc]

/-- With a dirty cache `notify` either signals completion (the id is a key of the
handle table) or appends the entry to the queue and issues one `GetCapabilities`
call. -/
theorem notify_dirty (w : World) (s : State) (n : Ptr) (c : KNotifyConfig)
    (hd : s.dbusServiceCapCacheDirty = true) :
    notify w s n c =
      if s.notifications.contains (toUInt (w.obj n).id) then (s, [Effect.finished n])
      else ({ s with notificationQueue := s.notificationQueue ++ [(n, c)] },
            [Effect.getCapabilities]) := by
  unfold notify queryPopupServerCapabilities finish
  split
  · rfl
  · simp [hd]

theorem notify_notifications (w : World) (s : State) (n : Ptr) (c : KNotifyConfig) :
    (notify w s n c).1.notifications = s.notifications := by
  cases hd : s.dbusServiceCapCacheDirty with
  | false => rw [notify_clean w s n c hd]
  | true => rw [notify_dirty w s n c hd]; split <;> rfl

theorem notify_dirty_flag (w : World) (s : State) (n : Ptr) (c : KNotifyConfig) :
    (notify w s n c).1.dbusServiceCapCacheDirty = s.dbusServiceCapCacheDirty := by
  cases hd : s.dbusServiceCapCacheDirty with
  | false => rw [notify_clean w s n c hd]; exact hd
  | true => rw [notify_dirty w s n c hd]; split <;> exact hd

theorem notifyEach_clean (w : World) (s : State) (calls : List (Ptr × KNotifyConfig))
    (hc : s.dbusServiceCapCacheDirty = false) :
    notifyEach w s calls = (s, (calls.map (fun e => (notify w s e.1 e.2).2)).flatten) := by
  induction calls with
  | nil => rfl
  | cons e rest ih =>
    have h1 : (notify w s e.1 e.2).1 = s := by rw [notify_clean w s e.1 e.2 hc]
    simp [notifyEach, h1, ih]

theorem wireTrace_append (a b : List Effect) :
    wireTrace (a ++ b) = wireTrace a ++ wireTrace b := by
  simp [wireTrace]

/-- A sequence of `notify` calls on a dirty cache: the entries that are not
suppressed are appended to the queue in order, and every call yields either the
completion signal or one `GetCapabilities` call. -/
theorem notifyEach_dirty (w : World) (calls : List (Ptr × KNotifyConfig)) :
    ∀ s : State, s.dbusServiceCapCacheDirty = true →
      notifyEach w s calls =
        ({ s with notificationQueue := s.notificationQueue ++
              calls.filter (fun e => !s.notifications.contains (toUInt (w.obj e.1).id)) },
         (calls.map (fun e =>
            if s.notifications.contains (toUInt (w.obj e.1).id) then [Effect.finished e.1]
            else [Effect.getCapabilities])).flatten) := by
  induction calls with
  | nil => intro s _; simp [notifyEach]
  | cons e rest ih =>
    intro s hd
    by_cases hs : s.notifications.contains (toUInt (w.obj e.1).id) = true
    · have h1 : notify w s e.1 e.2 = (s, [Effect.finished e.1]) := by
        rw [notify_dirty w s e.1 e.2 hd]; simp [hs]
      simp [notifyEach, h1, ih s hd, hs]
    · have h1 : notify w s e.1 e.2 =
          ({ s with notificationQueue := s.notificationQueue ++ [(e.1, e.2)] },
            [Effect.getCapabilities]) := by
        rw [notify_dirty w s e.1 e.2 hd]; simp [hs]
      have h2 := ih { s with notificationQueue := s.notificationQueue ++ [(e.1, e.2)] } hd
      simp only [] at h2
      simp [notifyEach, h1, h2, hs]

theorem wireTrace_flatten_dirty (t : HandleTable) (w : World)
    (calls : List (Ptr × KNotifyConfig)) :
    wireTrace ((calls.map (fun e =>
        if t.contains (toUInt (w.obj e.1).id) then [Effect.finished e.1]
        else [Effect.getCapabilities])).flatten) =
      List.replicate (calls.countP (fun e => !t.contains (toUInt (w.obj e.1).id)))
        Effect.getCapabilities := by
  induction calls with
  | nil => rfl
  | cons e rest ih =>
    simp only [List.map_cons, List.flatten_cons, wireTrace_append, ih]
    by_cases hs : t.contains (toUInt (w.obj e.1).id) = true
    · simp [hs, wireTrace, Effect.isWire]
    · simp [hs, wireTrace, Effect.isWire, List.replicate_succ]

/-! ## C1 -/

/-- C1 (as stated, refuted): two `notify` calls on the freshly constructed
dispatcher, whose cache is dirty, put two `GetCapabilities` calls on the wire,
not one. -/
theorem notify_twice_queries_twice :
    State.init.dbusServiceCapCacheDirty = true ∧
    wireTrace (notifyEach sampleWorld State.init [(1, sampleConfig), (2, sampleConfig)]).2
      = [Effect.getCapabilities, Effect.getCapabilities] ∧
    ¬ List.count Effect.getCapabilities
        (wireTrace (notifyEach sampleWorld State.init [(1, sampleConfig), (2, sampleConfig)]).2)
      = 1 := by
  decide

/-- C1 (amended): for every sequence of `notify` calls made while the capability
cache is dirty, the wire trace consists of one `GetCapabilities` call for every
call that is not suppressed by the already-on-screen check and of nothing else;
these calls are queued in order; with an empty handle table that is one
`GetCapabilities` call per `notify` call. -/
theorem notify_dirty_one_query_per_call (w : World) (s : State)
    (calls : List (Ptr × KNotifyConfig)) (hd : s.dbusServiceCapCacheDirty = true) :
    wireTrace (notifyEach w s calls).2 =
        List.replicate
          (calls.countP (fun e => !s.notifications.contains (toUInt (w.obj e.1).id)))
          Effect.getCapabilities
    ∧ (notifyEach w s calls).1.notificationQueue =
        s.notificationQueue ++
          calls.filter (fun e => !s.notifications.contains (toUInt (w.obj e.1).id))
    ∧ (s.notifications = [] →
        wireTrace (notifyEach w s calls).2 =
          List.replicate calls.length Effect.getCapabilities) := by
  rw [notifyEach_dirty w calls s hd]
  refine ⟨wireTrace_flatten_dirty _ w calls, rfl, ?_⟩
  intro he
  simp only []
  rw [wireTrace_flatten_dirty, he]
  simp [HandleTable.contains]

/-- Witness of C1 (amended): three calls on the initial state give three queries. -/
theorem notify_dirty_one_query_per_call_witness :
    State.init.dbusServiceCapCacheDirty = true ∧
    wireTrace (notifyEach sampleWorld State.init
        [(1, sampleConfig), (2, sampleConfig), (1, sampleConfig)]).2 =
      List.replicate 3 Effect.getCapabilities :=
  ⟨rfl, (notify_dirty_one_query_per_call sampleWorld State.init
      [(1, sampleConfig), (2, sampleConfig), (1, sampleConfig)] rfl).2.2 rfl⟩

/-! ## C2 -/

theorem wireTrace_flatten_clean (w : World) (s : State) (calls : List (Ptr × KNotifyConfig))
    (hc : s.dbusServiceCapCacheDirty = false) :
    wireTrace ((calls.map (fun e => (notify w s e.1 e.2).2)).flatten) =
      (calls.filter (fun e => !s.notifications.contains (toUInt (w.obj e.1).id))).map
        (fun e => Effect.notifyCall e.1
          (buildNotifyArgs w s.popupServerCapabilities (s.notifications.key e.1 0)
            (w.obj e.1) e.2)) := by
  induction calls with
  | nil => rfl
  | cons e rest ih =>
    simp only [List.map_cons, List.flatten_cons, wireTrace_append, ih]
    rw [notify_clean w s e.1 e.2 hc]
    by_cases hs : s.notifications.contains (toUInt (w.obj e.1).id) = true
    · simp [hs, wireTrace, Effect.isWire]
    · simp [hs, wireTrace, Effect.isWire]

/-- The capability reply in closed form. -/
theorem onCapabilitiesReply_eq (w : World) (s : State) (C : List String) :
    onCapabilitiesReply w s C =
      ({ popupServerCapabilities := C, notificationQueue := [],
         dbusServiceCapCacheDirty := false, notifications := s.notifications },
       (s.notificationQueue.map (fun e =>
          (notify w { s with popupServerCapabilities := C, dbusServiceCapCacheDirty := false }
            e.1 e.2).2)).flatten) := by
  have h := notifyEach_clean w
    { s with popupServerCapabilities := C, dbusServiceCapCacheDirty := false }
    s.notificationQueue rfl
  simp [onCapabilitiesReply, h]

/-- C2: processing a capability reply with capability list `C` stores `C`, marks
the cache clean, leaves the queue empty and the handle table as it was; its
effects are those of `notify`, run on the clean state with capability set `C`,
for the queued entries in insertion order; the wire calls among them are the
`Notify` calls of the entries that are not suppressed, in queue order, each built
with capability set `C`. -/
theorem capabilities_reply_replays_queue (w : World) (s : State) (C : List String) :
    (onCapabilitiesReply w s C).1 =
        { popupServerCapabilities := C, notificationQueue := [],
          dbusServiceCapCacheDirty := false, notifications := s.notifications }
    ∧ (onCapabilitiesReply w s C).2 =
        (s.notificationQueue.map (fun e =>
          (notify w { s with popupServerCapabilities := C, dbusServiceCapCacheDirty := false }
            e.1 e.2).2)).flatten
    ∧ wireTrace (onCapabilitiesReply w s C).2 =
        (s.notificationQueue.filter
            (fun e => !s.notifications.contains (toUInt (w.obj e.1).id))).map
          (fun e => Effect.notifyCall e.1
            (buildNotifyArgs w C (s.notifications.key e.1 0) (w.obj e.1) e.2)) := by
  have hw := wireTrace_flatten_clean w
    { s with popupServerCapabilities := C, dbusServiceCapCacheDirty := false }
    s.notificationQueue rfl
  rw [onCapabilitiesReply_eq]
  exact ⟨rfl, rfl, hw⟩

/-! ## C3 -/

/-- C3 (failing input): after `notify`, the capability reply and the `Notify` reply
with handle `5`, notification `1` is on screen (handle `5` maps to it). A second
`notify` for it is not suppressed: the check looks for the id `1` among the daemon
handles, so a `Notify` call replacing handle `5` goes on the wire and no completion
signal is emitted. -/
theorem notify_live_request_sends_again :
    run sampleWorld Sys.init
        [.notify 1 sampleConfig, .capabilitiesReply ["actions"], .notifyReply 0 5]
      = some liveSys
    ∧ liveSys.st = liveState
    ∧ liveState.notifications.find 5 = some (some 1)
    ∧ notify sampleWorld liveState 1 sampleConfig =
        (liveState, [Effect.notifyCall 1
          (buildNotifyArgs sampleWorld ["actions"] 5 (sampleNotification 1) sampleConfig)])
    ∧ wireTrace (notify sampleWorld liveState 1 sampleConfig).2 ≠ []
    ∧ Effect.finished 1 ∉ (notify sampleWorld liveState 1 sampleConfig).2 := by
  decide

/-! ## C4 and C5 -/

/-- C4 (failing input): notification `1` is queued by a `notify` on the dirty cache
and has no handle; `close` returns at the missing handle, before the loop that
clears the queue, so the queue still holds the entry. -/
theorem close_unregistered_keeps_queue_entry :
    (notify sampleWorld State.init 1 sampleConfig).1.notificationQueue = [(1, sampleConfig)]
    ∧ (notify sampleWorld State.init 1 sampleConfig).1.notifications = []
    ∧ close (notify sampleWorld State.init 1 sampleConfig).1 1 =
        ((notify sampleWorld State.init 1 sampleConfig).1, [])
    ∧ (close (notify sampleWorld State.init 1 sampleConfig).1 1).1.notificationQueue =
        [(1, sampleConfig)] := by
  decide

/-- C5 (failing input): `notify` on the dirty cache, then `close`, then the
capability reply: the replay issues a `Notify` call for the closed notification. -/
theorem closed_while_queued_is_replayed :
    run sampleWorld Sys.init
        [.notify 1 sampleConfig, .close 1, .capabilitiesReply ["actions"]]
      = some { st := { popupServerCapabilities := ["actions"], notificationQueue := []
                       dbusServiceCapCacheDirty := false, notifications := [] }
               pendingCaps := 0, pendingNotify := [(1, 0)], usedHandles := []
               trace := [Effect.getCapabilities,
                 Effect.notifyCall 1
                   (buildNotifyArgs sampleWorld ["actions"] 0 (sampleNotification 1)
                     sampleConfig)] }
    ∧ wireTrace (onCapabilitiesReply sampleWorld
          (close (notify sampleWorld State.init 1 sampleConfig).1 1).1 ["actions"]).2 =
        [Effect.notifyCall 1
          (buildNotifyArgs sampleWorld ["actions"] 0 (sampleNotification 1) sampleConfig)] := by
  decide

/-! ## Facts about the handle table -/

theorem HandleTable.find_cons (e : Nat × Option Ptr) (rest : HandleTable) (k : Nat) :
    HandleTable.find (e :: rest) k = if e.1 = k then some e.2 else HandleTable.find rest k := by
  unfold HandleTable.find
  by_cases hk : e.1 = k
  · simp [List.find?_cons, hk]
  · simp [List.find?_cons, hk]

theorem HandleTable.remove_cons (e : Nat × Option Ptr) (rest : HandleTable) (k : Nat) :
    HandleTable.remove (e :: rest) k =
      if e.1 = k then HandleTable.remove rest k else e :: HandleTable.remove rest k := by
  unfold HandleTable.remove
  by_cases hk : e.1 = k
  · simp [List.filter_cons, hk]
  · simp [List.filter_cons, hk]

theorem HandleTable.find_remove_self (t : HandleTable) (k : Nat) :
    (HandleTable.remove t k).find k = none := by
  induction t with
  | nil => rfl
  | cons e rest ih =>
    rw [HandleTable.remove_cons]
    by_cases hk : e.1 = k
    · rw [if_pos hk]; exact ih
    · rw [if_neg hk, HandleTable.find_cons, if_neg hk]; exact ih

theorem HandleTable.find_remove_ne (t : HandleTable) (k k1 : Nat) (hne : k1 ≠ k) :
    (HandleTable.remove t k).find k1 = t.find k1 := by
  induction t with
  | nil => rfl
  | cons e rest ih =>
    rw [HandleTable.remove_cons, HandleTable.find_cons]
    by_cases hk : e.1 = k
    · have hk1 : ¬ e.1 = k1 := fun h => hne (h.symm.trans hk)
      rw [if_pos hk, if_neg hk1]; exact ih
    · rw [if_neg hk, HandleTable.find_cons]
      by_cases hk1 : e.1 = k1
      · rw [if_pos hk1, if_pos hk1]
      · rw [if_neg hk1, if_neg hk1]; exact ih

theorem HandleTable.mem_of_find (t : HandleTable) (k : Nat) (v : Option Ptr)
    (hf : t.find k = some v) : (k, v) ∈ t := by
  unfold HandleTable.find at hf
  cases hq : List.find? (fun e => e.1 == k) t with
  | none => simp [hq] at hf
  | some e =>
    have h1 := List.find?_some hq
    have h2 := List.mem_of_find?_eq_some hq
    simp [hq] at hf
    have h3 : e.1 = k := by simpa using h1
    have h4 : e = (k, v) := by
      cases e; simp at h3 hf; simp [h3, hf]
    rw [← h4]; exact h2

/-- When exactly one handle maps to `r`, the reverse lookup returns it. -/
theorem HandleTable.key_unique (t : HandleTable) (r : Ptr) (h d : Nat)
    (hm : (h, some r) ∈ t) (hu : ∀ h1, (h1, some r) ∈ t → h1 = h) :
    t.key r d = h := by
  unfold HandleTable.key
  cases hq : List.find? (fun e => e.2 == some r) t with
  | none =>
    have := List.find?_eq_none.mp hq (h, some r) hm
    simp at this
  | some e =>
    have h1 := List.find?_some hq
    have h2 := List.mem_of_find?_eq_some hq
    have h3 : e.2 = some r := by simpa using h1
    have h4 : e = (e.1, some r) := by
      cases e; simp at h3; simp [h3]
    rw [h4] at h2
    exact hu e.1 h2

/-! ## C7 -/

/-- C7 (as stated, refuted): notification `1` is on screen under handle `5`; after
`close` the handle table still maps `5` to it. -/
theorem close_leaves_handle_registered :
    liveState.notifications.find 5 = some (some 1)
    ∧ (close liveState 1).1.notifications.find 5 = some (some 1)
    ∧ ¬ (close liveState 1).1.notifications.find 5 = none := by
  decide

/-- C7 (amended): when handle `h` maps to `r`, `close` leaves the handle table as it
is, so `h` still maps to `r` when `close` returns; the handle is removed when the
`NotificationClosed` signal for `h` is processed. -/
theorem close_keeps_handle_until_closed_signal (s : State) (r : Ptr) (h : Nat)
    (hl : s.notifications.find h = some (some r)) :
    (close s r).1.notifications = s.notifications
    ∧ (close s r).1.notifications.find h = some (some r)
    ∧ ∀ reason : Nat,
        (onNotificationClosed (close s r).1 h reason).1.notifications.find h = none := by
  have h1 : (close s r).1.notifications = s.notifications := by
    unfold close
    simp only []
    split <;> rfl
  refine ⟨h1, by rw [h1]; exact hl, ?_⟩
  intro reason
  unfold onNotificationClosed
  rw [h1, hl]
  simp only []
  exact HandleTable.find_remove_self _ _

/-- Witness of C7 (amended). -/
theorem close_keeps_handle_until_closed_signal_witness :
    liveState.notifications.find 5 = some (some 1)
    ∧ ((close liveState 1).1.notifications = liveState.notifications
      ∧ (close liveState 1).1.notifications.find 5 = some (some 1)
      ∧ (onNotificationClosed (close liveState 1).1 5 3).1.notifications.find 5 = none) :=
  ⟨by decide,
   (close_keeps_handle_until_closed_signal liveState 1 5 (by decide)).1,
   (close_keeps_handle_until_closed_signal liveState 1 5 (by decide)).2.1,
   (close_keeps_handle_until_closed_signal liveState 1 5 (by decide)).2.2 3⟩

/-! ## C8 -/

/-- C8: when exactly one handle `h`, not zero, maps to `r`, `close` issues the single
wire call `CloseNotification(h)` and nothing else, and the queue afterwards is the
queue before without the entries of `r`, the others in their order; the rest of
the state is unchanged. -/
theorem close_registered (s : State) (r : Ptr) (h : Nat) (h0 : h ≠ 0)
    (hm : (h, some r) ∈ s.notifications)
    (hu : ∀ h1, (h1, some r) ∈ s.notifications → h1 = h) :
    (close s r).2 = [Effect.closeNotification h]
    ∧ wireTrace (close s r).2 = [Effect.closeNotification h]
    ∧ (close s r).1.notificationQueue =
        s.notificationQueue.filter (fun item => decide (item.1 ≠ r))
    ∧ (close s r).1.notifications = s.notifications
    ∧ (close s r).1.popupServerCapabilities = s.popupServerCapabilities
    ∧ (close s r).1.dbusServiceCapCacheDirty = s.dbusServiceCapCacheDirty := by
  have hk : s.notifications.key r 0 = h := HandleTable.key_unique _ r h 0 hm hu
  have hc : close s r =
      ({ s with notificationQueue := s.notificationQueue.filter (fun item => item.1 != r) },
        [Effect.closeNotification h]) := by
    unfold close
    simp [hk, h0]
  rw [hc]
  refine ⟨rfl, rfl, ?_, rfl, rfl, rfl⟩
  simp only []
  congr 1
  funext item
  by_cases hi : item.1 = r <;> simp [bne, hi]

/-- Witness of C8: handle `5` is the only handle of notification `1`; the two queue
entries of notification `1` go, the entry of notification `2` stays. -/
theorem close_registered_witness :
    ((5 : Nat) ≠ 0 ∧ (5, some 1) ∈ liveQueuedState.notifications
      ∧ ∀ h1, (h1, some 1) ∈ liveQueuedState.notifications → h1 = 5)
    ∧ (close liveQueuedState 1).2 = [Effect.closeNotification 5]
    ∧ (close liveQueuedState 1).1.notificationQueue = [(2, sampleConfig)] := by
  have hu : ∀ h1, (h1, some 1) ∈ liveQueuedState.notifications → h1 = 5 := by
    intro h1 hmem
    simp [liveQueuedState, liveState] at hmem
    exact hmem
  have hm : (5, some 1) ∈ liveQueuedState.notifications := by
    simp [liveQueuedState, liveState]
  have ht := close_registered liveQueuedState 1 5 (by decide) hm hu
  refine ⟨⟨by decide, hm, hu⟩, ht.1, ?_⟩
  rw [ht.2.2.1]
  decide

/-! ## C9 -/

/-- C9: when handle `h` maps to a notification `r` that still exists, processing
`NotificationClosed(h, c)` removes `h` from the handle table and keeps every other
entry, emits `finished` for `r` exactly once, and calls `r->close()` if and only if
`c = 2`; capabilities, dirty flag and queue are unchanged. -/
theorem notification_closed_known_handle (s : State) (h : Nat) (r : Ptr) (c : Nat)
    (hl : s.notifications.find h = some (some r)) :
    (onNotificationClosed s h c).1.notifications =
        s.notifications.filter (fun e => decide (e.1 ≠ h))
    ∧ (onNotificationClosed s h c).1.notifications.find h = none
    ∧ (∀ h1, h1 ≠ h →
        (onNotificationClosed s h c).1.notifications.find h1 = s.notifications.find h1)
    ∧ (onNotificationClosed s h c).1.notificationQueue = s.notificationQueue
    ∧ (onNotificationClosed s h c).1.popupServerCapabilities = s.popupServerCapabilities
    ∧ (onNotificationClosed s h c).1.dbusServiceCapCacheDirty = s.dbusServiceCapCacheDirty
    ∧ (onNotificationClosed s h c).2 =
        Effect.finished r :: (if c = 2 then [Effect.closeRequest r] else [])
    ∧ List.count (Effect.finished r) (onNotificationClosed s h c).2 = 1
    ∧ (Effect.closeRequest r ∈ (onNotificationClosed s h c).2 ↔ c = 2) := by
  have hc : onNotificationClosed s h c =
      ({ s with notifications := s.notifications.remove h },
        Effect.finished r :: (if c = 2 then [Effect.closeRequest r] else [])) := by
    unfold onNotificationClosed
    rw [hl]
  rw [hc]
  refine ⟨?_, HandleTable.find_remove_self _ _,
    fun h1 hne => HandleTable.find_remove_ne _ _ _ hne, rfl, rfl, rfl, rfl, ?_, ?_⟩
  · simp only [HandleTable.remove]
    congr 1
    funext e
    by_cases he : e.1 = h <;> simp [bne, he]
  · by_cases h2 : c = 2 <;> simp [h2]
  · by_cases h2 : c = 2 <;> simp [h2]

/-- Witness of C9: reason `2` on the live notification of `liveState`. -/
theorem notification_closed_known_handle_witness :
    liveState.notifications.find 5 = some (some 1)
    ∧ (onNotificationClosed liveState 5 2).2 = [Effect.finished 1, Effect.closeRequest 1]
    ∧ (onNotificationClosed liveState 5 2).1.notifications = [] := by
  have ht := notification_closed_known_handle liveState 5 1 2 (by decide)
  refine ⟨by decide, ?_, ?_⟩
  · rw [ht.2.2.2.2.2.2.1]; rfl
  · rw [ht.1]; decide

/-! ## C10 -/

/-- C10: when handle `h` maps to a notification `r` that still exists, processing
`ActionInvoked(h, key)` leaves the state unchanged and emits exactly one
`actionInvoked` signal with the id of `r`: with index `0` when `key` is "default"
and the default action of `r` is not empty, otherwise with the integer that
`QString::toInt` reads from `key`, or `0` when the conversion fails (as it does
for "default"), whatever its relation to the number of declared actions. -/
theorem action_invoked_known_handle (w : World) (s : State) (h : Nat) (r : Ptr)
    (key : String) (hl : s.notifications.find h = some (some r)) :
    (onNotificationActionInvoked w s h key).1 = s
    ∧ (onNotificationActionInvoked w s h key).2 =
        [Effect.actionInvoked (w.obj r).id
          (if key = "default" ∧ (w.obj r).defaultAction ≠ "" then 0
           else match w.toInt key with
             | some k => k
             | none => 0)]
    ∧ (w.toInt "default" = none → key = "default" → (w.obj r).defaultAction = "" →
        (onNotificationActionInvoked w s h key).2 = [Effect.actionInvoked (w.obj r).id 0])
    ∧ (∀ k : Int, ¬ (key = "default" ∧ (w.obj r).defaultAction ≠ "") → w.toInt key = some k →
        (onNotificationActionInvoked w s h key).2 = [Effect.actionInvoked (w.obj r).id k]) := by
  have hc : onNotificationActionInvoked w s h key =
      (s, [Effect.actionInvoked (w.obj r).id
          (if key = "default" ∧ (w.obj r).defaultAction ≠ "" then 0
           else match w.toInt key with
             | some k => k
             | none => 0)]) := by
    unfold onNotificationActionInvoked
    rw [hl]
    simp only []
    by_cases hd : key = "default" ∧ (w.obj r).defaultAction ≠ ""
    · rw [if_pos hd, if_pos hd]
    · rw [if_neg hd, if_neg hd]
      cases w.toInt key <;> rfl
  rw [hc]
  refine ⟨rfl, rfl, ?_, ?_⟩
  · intro hn hk hd
    subst hk
    simp [hd, hn]
  · intro k hd hk
    simp only []
    rw [if_neg hd, hk]

/-- Witness of C10: key "7" on a notification with two actions is forwarded as
index `7`. -/
theorem action_invoked_known_handle_witness :
    liveState.notifications.find 5 = some (some 1)
    ∧ (onNotificationActionInvoked sampleWorld liveState 5 "7").1 = liveState
    ∧ (onNotificationActionInvoked sampleWorld liveState 5 "7").2 =
        [Effect.actionInvoked 1 7] :=
  ⟨by decide,
   (action_invoked_known_handle sampleWorld liveState 5 1 "7" (by decide)).1,
   (action_invoked_known_handle sampleWorld liveState 5 1 "7" (by decide)).2.2.2 7
     (by decide) (by decide)⟩

/-! ## C6 -/

theorem issuedFor_append (a b : List Effect) (r : Ptr) :
    issuedFor (a ++ b) r = issuedFor a r + issuedFor b r := by
  simp [issuedFor]

theorem pendingFor_append (a b : List (Ptr × Nat)) (r : Ptr) :
    pendingFor (a ++ b) r = pendingFor a r + pendingFor b r := by
  simp [pendingFor]

/-- The watchers created by a list of effects are its `Notify` calls. -/
theorem pendingFor_watchers (es : List Effect) (r : Ptr) :
    pendingFor (es.filterMap Effect.watcher) r = issuedFor es r := by
  induction es with
  | nil => rfl
  | cons e rest ih =>
    unfold pendingFor issuedFor at *
    cases e with
    | notifyCall n args =>
      by_cases hn : n = r
      · simp [Effect.watcher, Effect.isNotifyFor, List.filterMap_cons, hn, ih]
      · simp [Effect.watcher, Effect.isNotifyFor, List.filterMap_cons, hn, ih]
    | getCapabilities => simpa [Effect.watcher, Effect.isNotifyFor, List.filterMap_cons] using ih
    | closeNotification _ =>
      simpa [Effect.watcher, Effect.isNotifyFor, List.filterMap_cons] using ih
    | finished _ => simpa [Effect.watcher, Effect.isNotifyFor, List.filterMap_cons] using ih
    | actionInvoked _ _ =>
      simpa [Effect.watcher, Effect.isNotifyFor, List.filterMap_cons] using ih
    | closeRequest _ => simpa [Effect.watcher, Effect.isNotifyFor, List.filterMap_cons] using ih

theorem handlesOf_remove_le (t : HandleTable) (k : Nat) (r : Ptr) :
    handlesOf (HandleTable.remove t k) r ≤ handlesOf t r := by
  unfold handlesOf HandleTable.remove
  exact List.Sublist.countP_le _ (List.filter_sublist t)

theorem handlesOf_insert_le (t : HandleTable) (k : Nat) (n r : Ptr) :
    handlesOf (HandleTable.insert t k (some n)) r ≤
      handlesOf t r + (if n = r then 1 else 0) := by
  have h1 := handlesOf_remove_le t k r
  unfold HandleTable.insert
  unfold handlesOf at *
  by_cases hn : n = r
  · simp [List.countP_cons, hn]
    omega
  · simp [List.countP_cons, hn]
    omega

theorem pendingFor_eraseIdx (p : List (Ptr × Nat)) (r : Ptr) :
    ∀ (i : Nat) (c : Ptr × Nat), p.get? i = some c →
      pendingFor (p.eraseIdx i) r + (if c.1 = r then 1 else 0) = pendingFor p r := by
  induction p with
  | nil => intro i c hc; simp at hc
  | cons e rest ih =>
    intro i c hc
    cases i with
    | zero =>
      simp at hc
      subst hc
      unfold pendingFor
      by_cases he : e.1 = r <;> simp [List.countP_cons, he]
    | succ j =>
      simp at hc
      have h1 := ih j c (by simpa using hc)
      unfold pendingFor at *
      simp only [List.eraseIdx_cons_succ, List.countP_cons]
      omega

theorem accounted_absorb (y : Sys) (res : State × List Effect) (hy : Accounted y)
    (ht : ∀ r, handlesOf res.1.notifications r ≤ handlesOf y.st.notifications r) :
    Accounted (y.absorb res) := by
  intro r
  have h1 := hy r
  have h2 := ht r
  simp only [Sys.absorb, pendingFor_append, issuedFor_append, pendingFor_watchers]
  omega

theorem close_notifications (s : State) (n : Ptr) :
    (close s n).1.notifications = s.notifications := by
  unfold close
  simp only []
  split <;> rfl

theorem onNotificationActionInvoked_handles (w : World) (s : State) (h : Nat)
    (key : String) (r : Ptr) :
    handlesOf (onNotificationActionInvoked w s h key).1.notifications r ≤
      handlesOf s.notifications r := by
  unfold onNotificationActionInvoked
  split
  · exact Nat.le_refl _
  · split <;> exact Nat.le_refl _
  · exact handlesOf_remove_le _ _ _

theorem onNotificationClosed_handles (s : State) (h c : Nat) (r : Ptr) :
    handlesOf (onNotificationClosed s h c).1.notifications r ≤
      handlesOf s.notifications r := by
  unfold onNotificationClosed
  split
  · exact Nat.le_refl _
  · split <;> exact handlesOf_remove_le _ _ _

theorem accounted_step (w : World) (y y1 : Sys) (e : Event) (hy : Accounted y)
    (hs : step w y e = some y1) : Accounted y1 := by
  cases e with
  | notify n c =>
    simp only [step, Option.some.injEq] at hs
    subst hs
    exact accounted_absorb y _ hy (fun r => by rw [notify_notifications])
  | update n c =>
    simp only [step, Option.some.injEq] at hs
    subst hs
    exact accounted_absorb y _ hy (fun r => Nat.le_refl _)
  | close n =>
    simp only [step, Option.some.injEq] at hs
    subst hs
    exact accounted_absorb y _ hy (fun r => by rw [close_notifications])
  | capabilitiesReply caps =>
    simp only [step] at hs
    split at hs
    · simp at hs
    · simp only [Option.some.injEq] at hs
      subst hs
      have hy1 : Accounted { y with pendingCaps := y.pendingCaps - 1 } := hy
      exact accounted_absorb _ _ hy1
        (fun r => by rw [onCapabilitiesReply_eq])
  | notifyReply call handle =>
    simp only [step] at hs
    split at hs
    · simp at hs
    · split at hs
      · simp at hs
      · rename_i p hp
        simp only [Option.some.injEq] at hs
        subst hs
        intro r
        have h1 := hy r
        have h2 := handlesOf_insert_le y.st.notifications handle p.1 r
        have h3 := pendingFor_eraseIdx y.pendingNotify r call p hp
        simp only [onNotifyReply]
        omega
  | actionInvoked handle key =>
    simp only [step, Option.some.injEq] at hs
    subst hs
    exact accounted_absorb y _ hy (fun r => onNotificationActionInvoked_handles w _ _ _ r)
  | notificationClosed handle reason =>
    simp only [step, Option.some.injEq] at hs
    subst hs
    exact accounted_absorb y _ hy (fun r => onNotificationClosed_handles _ _ _ r)

theorem accounted_run (w : World) (evs : List Event) :
    ∀ y y1 : Sys, Accounted y → run w y evs = some y1 → Accounted y1 := by
  induction evs with
  | nil =>
    intro y y1 hy hr
    simp only [run, Option.some.injEq] at hr
    subst hr
    exact hy
  | cons e rest ih =>
    intro y y1 hy hr
    simp only [run] at hr
    cases hs : step w y e with
    | none => rw [hs] at hr; simp at hr
    | some y2 =>
      rw [hs] at hr
      exact ih y2 y1 (accounted_step w y y2 e hy hs) hr

theorem accounted_init : Accounted Sys.init := by
  intro r
  simp [Sys.init, State.init, handlesOf, pendingFor, issuedFor]

/-- Two entries of a table that map to `r` have the same handle when at most one
handle maps to `r`. -/
theorem handle_unique_of_count (t : HandleTable) (r : Ptr) (hc : handlesOf t r ≤ 1)
    (h1 h2 : Nat) (m1 : (h1, some r) ∈ t) (m2 : (h2, some r) ∈ t) : h1 = h2 := by
  induction t with
  | nil => simp at m1
  | cons e rest ih =>
    unfold handlesOf at hc ih
    rw [List.countP_cons] at hc
    by_cases he : e.2 = some r
    · have hz : List.countP (fun e => e.2 == some r) rest = 0 := by
        simp [he] at hc
        simpa using hc
      have hnone : ∀ k, (k, some r) ∉ rest := by
        intro k hk
        have := List.countP_eq_zero.mp hz (k, some r) hk
        simp at this
      rcases List.mem_cons.mp m1 with a1 | a1
      · rcases List.mem_cons.mp m2 with a2 | a2
        · rw [← a1] at a2
          exact (Prod.mk.inj a2).1.symm
        · exact absurd a2 (hnone h2)
      · exact absurd a1 (hnone h1)
    · have hle : List.countP (fun e => e.2 == some r) rest ≤ 1 := by
        simp [he] at hc
        exact hc
      have n1 : (h1, some r) ∈ rest := by
        rcases List.mem_cons.mp m1 with a1 | a1
        · exact absurd (by rw [← a1]) he
        · exact a1
      have n2 : (h2, some r) ∈ rest := by
        rcases List.mem_cons.mp m2 with a2 | a2
        · exact absurd (by rw [← a2]) he
        · exact a2
      exact ih hle n1 n2

/-- C6 (as stated, refuted): `notify` for notification `1`, the capability reply, a
second `notify` for it before the first `Notify` reply, then the two replies with
the fresh handles `11` and `12`: both handles map to notification `1`. -/
theorem two_handles_for_one_request :
    (run sampleWorld Sys.init
        [.notify 1 sampleConfig, .capabilitiesReply ["actions"], .notify 1 sampleConfig,
         .notifyReply 0 11, .notifyReply 0 12]).map (fun y => y.st.notifications)
      = some [(12, some 1), (11, some 1)]
    ∧ HandleTable.find [(12, some 1), (11, some 1)] 11 = some (some 1)
    ∧ HandleTable.find [(12, some 1), (11, some 1)] 12 = some (some 1)
    ∧ (11 : Nat) ≠ 12 := by
  decide

/-- C6 (amended): in every state reached from the initial state by `notify`,
`update` and `close` calls, capability replies, `Notify` replies with fresh non-zero
handles for outstanding calls, and `ActionInvoked` and `NotificationClosed`
signals, the handles that map to a notification `r` together with the `Notify`
calls for `r` that still await their reply are at most as many as the `Notify`
calls issued for `r`; so no two distinct handles map to `r` as long as at most one
`Notify` call has been issued for `r`. -/
theorem handles_bounded_by_issued_calls (w : World) (evs : List Event) (y : Sys)
    (hr : run w Sys.init evs = some y) (r : Ptr) :
    handlesOf y.st.notifications r + pendingFor y.pendingNotify r ≤ issuedFor y.trace r
    ∧ (issuedFor y.trace r ≤ 1 →
        ∀ h1 h2 : Nat, (h1, some r) ∈ y.st.notifications →
          (h2, some r) ∈ y.st.notifications → h1 = h2)
    ∧ (issuedFor y.trace r ≤ 1 →
        ∀ h1 h2 : Nat, y.st.notifications.find h1 = some (some r) →
          y.st.notifications.find h2 = some (some r) → h1 = h2) := by
  have ha := accounted_run w evs Sys.init y accounted_init hr r
  have hu : issuedFor y.trace r ≤ 1 →
      ∀ h1 h2 : Nat, (h1, some r) ∈ y.st.notifications →
        (h2, some r) ∈ y.st.notifications → h1 = h2 := by
    intro hi h1 h2 m1 m2
    exact handle_unique_of_count _ r (by omega) h1 h2 m1 m2
  refine ⟨ha, hu, ?_⟩
  intro hi h1 h2 f1 f2
  exact hu hi h1 h2 (HandleTable.mem_of_find _ _ _ f1) (HandleTable.mem_of_find _ _ _ f2)

/-- Witness of C6 (amended): the run that leads to `liveSys`, with one `Notify` call
issued for notification `1` and one handle mapping to it. -/
theorem handles_bounded_by_issued_calls_witness :
    run sampleWorld Sys.init
        [.notify 1 sampleConfig, .capabilitiesReply ["actions"], .notifyReply 0 5]
      = some liveSys
    ∧ handlesOf liveSys.st.notifications 1 + pendingFor liveSys.pendingNotify 1
        ≤ issuedFor liveSys.trace 1
    ∧ issuedFor liveSys.trace 1 ≤ 1
    ∧ ∀ h1 h2 : Nat, (h1, some 1) ∈ liveSys.st.notifications →
        (h2, some 1) ∈ liveSys.st.notifications → h1 = h2 :=
  ⟨by decide,
   (handles_bounded_by_issued_calls sampleWorld
      [.notify 1 sampleConfig, .capabilitiesReply ["actions"], .notifyReply 0 5]
      liveSys (by decide) 1).1,
   by decide,
   (handles_bounded_by_issued_calls sampleWorld
      [.notify 1 sampleConfig, .capabilitiesReply ["actions"], .notifyReply 0 5]
      liveSys (by decide) 1).2.1 (by decide)⟩

/-! ## C11 -/

/-- The numbered part of the action list: the ordinal, counted from `k + 1`, in
decimal, before every action, in declaration order. -/
theorem numberedActions_eq (acts : List String) :
    ∀ k : Nat, numberedActions k acts =
      ((List.enumFrom (k + 1) acts).map (fun p => [Nat.repr p.1, p.2])).flatten := by
  induction acts with
  | nil => intro k; rfl
  | cons a rest ih =>
    intro k
    simp [numberedActions, List.enumFrom_cons, ih (k + 1)]

/-- C11: the action list of the `Notify` call is empty when the capability set lacks
"actions"; otherwise it is "default" and the default action, when that is not
empty, followed by the decimal ordinal (from 1) and the text of every declared
action in declaration order. Default action Open with actions Ignore and Snooze
gives default, Open, 1, Ignore, 2, Snooze. -/
theorem action_list_encoding (w : World) (caps : List String) (updateId : Nat)
    (n : KNotification) (c : KNotifyConfig) :
    (buildNotifyArgs w caps updateId n c).actionList =
        (if "actions" ∈ caps then
          (if n.defaultAction = "" then [] else ["default", n.defaultAction]) ++
            ((List.enumFrom 1 n.actions).map (fun p => [Nat.repr p.1, p.2])).flatten
         else [])
    ∧ (buildNotifyArgs sampleWorld ["actions"] 0 (sampleNotification 1) sampleConfig).actionList
        = ["default", "Open", "1", "Ignore", "2", "Snooze"]
    ∧ (buildNotifyArgs sampleWorld ["body-markup"] 0 (sampleNotification 1)
        sampleConfig).actionList = [] := by
  refine ⟨?_, by decide, by decide⟩
  simp only [buildNotifyArgs, buildActionList, numberedActions_eq]
  by_cases hc : "actions" ∈ caps
  · by_cases hd : n.defaultAction = "" <;> simp [hc, hd]
  · simp [hc]

/-! ## Facts about hint maps -/

theorem QVariantMap.get_set_self (m : QVariantMap) (k : String) (v : QVariant) :
    (m.set k v).get k = some v := by
  induction m with
  | nil => simp [QVariantMap.set, QVariantMap.get]
  | cons e rest ih =>
    obtain ⟨k0, v0⟩ := e
    by_cases hk : k0 = k
    · simp [QVariantMap.set, QVariantMap.get, hk]
    · simp [QVariantMap.set, QVariantMap.get, hk, ih]

theorem QVariantMap.get_set_ne (m : QVariantMap) (k k1 : String) (v : QVariant)
    (hne : k ≠ k1) : (m.set k v).get k1 = m.get k1 := by
  induction m with
  | nil => simp [QVariantMap.set, QVariantMap.get, hne]
  | cons e rest ih =>
    obtain ⟨k0, v0⟩ := e
    by_cases hk : k0 = k
    · have hk1 : ¬ k0 = k1 := fun h => hne (hk.symm.trans h)
      simp [QVariantMap.set, QVariantMap.get, hk, hne]
    · by_cases hk1 : k0 = k1
      · subst hk1
        simp [QVariantMap.set, QVariantMap.get, hk]
      · simp [QVariantMap.set, QVariantMap.get, hk, hk1, ih]

/-- Merging a bag that lacks key `k` does not change the value of `k`. -/
theorem QVariantMap.get_merge_of_not_mem (bag : QVariantMap) (k : String)
    (hk : ∀ kv ∈ bag, kv.1 ≠ k) :
    ∀ m : QVariantMap, (bag.foldl (fun m kv => m.set kv.1 kv.2) m).get k = m.get k := by
  induction bag with
  | nil => intro m; rfl
  | cons e rest ih =>
    intro m
    rw [List.foldl_cons, ih (fun kv hkv => hk kv (List.mem_cons_of_mem _ hkv))]
    exact QVariantMap.get_set_ne m e.1 k e.2 (hk e (List.mem_cons_self _ _))

/-- Merging a bag with distinct keys gives every key of the bag the value of the bag. -/
theorem QVariantMap.get_merge_of_mem (bag : QVariantMap) (k : String) (v : QVariant)
    (hn : (bag.map Prod.fst).Nodup) (hm : (k, v) ∈ bag) :
    ∀ m : QVariantMap, (bag.foldl (fun m kv => m.set kv.1 kv.2) m).get k = some v := by
  induction bag with
  | nil => simp at hm
  | cons e rest ih =>
    intro m
    rw [List.map_cons, List.nodup_cons] at hn
    rw [List.foldl_cons]
    rcases List.mem_cons.mp hm with he | hr
    · subst he
      have hnot : ∀ kv ∈ rest, kv.1 ≠ k := by
        intro kv hkv heq
        exact hn.1 (List.mem_map.mpr ⟨kv, hkv, heq⟩)
      rw [QVariantMap.get_merge_of_not_mem rest k hnot]
      exact QVariantMap.get_set_self m k v
    · exact ih hn.2 hr _

theorem QVariantMap.get_ite_set_ne (p : Prop) [Decidable p] (m : QVariantMap)
    (k k1 : String) (v : QVariant) (hne : k ≠ k1) :
    (if p then m.set k v else m).get k1 = m.get k1 := by
  by_cases hp : p
  · rw [if_pos hp]; exact QVariantMap.get_set_ne m k k1 v hne
  · rw [if_neg hp]

/-- A key that the own hint bag of the request lacks (and that is not overwritten by
the image hint) has the value the dispatcher computes, which is its value for the
same request with an empty bag and no image. -/
theorem buildHints_get_of_not_bag (w : World) (n : KNotification) (k : String)
    (hk : ∀ kv ∈ n.hints, kv.1 ≠ k) (hi : n.pixmap = none ∨ k ≠ "image_data") :
    (buildHints w n).get k =
      (buildHints w { n with hints := [], pixmap := none }).get k := by
  unfold buildHints
  simp only [List.foldl_nil]
  cases hp : n.pixmap with
  | none =>
    simp only []
    rw [QVariantMap.get_merge_of_not_mem n.hints k hk]
  | some px =>
    simp only []
    have hne : "image_data" ≠ k := by
      rcases hi with h | h
      · rw [hp] at h; cases h
      · exact fun e => h e.symm
    rw [QVariantMap.get_set_ne _ _ _ _ hne, QVariantMap.get_merge_of_not_mem n.hints k hk]

theorem computed_urgency (w : World) (n : KNotification) :
    (buildHints w { n with hints := [], pixmap := none }).get "urgency" =
      if urgencyValue n.urgency > -1 then some (.int (urgencyValue n.urgency)) else none := by
  unfold buildHints
  simp only [List.foldl_nil]
  by_cases hu : urgencyValue n.urgency > -1
  · rw [if_pos hu, if_pos hu, QVariantMap.get_set_self]
  · rw [if_neg hu, if_neg hu]
    rw [QVariantMap.get_ite_set_ne _ _ _ _ _ (by decide),
      QVariantMap.get_ite_set_ne _ _ _ _ _ (by decide),
      QVariantMap.get_ite_set_ne _ _ _ _ _ (by decide),
      QVariantMap.get_ite_set_ne _ _ _ _ _ (by decide),
      QVariantMap.get_ite_set_ne _ _ _ _ _ (by decide)]
    rfl

theorem computed_desktop_entry (w : World) (n : KNotification) :
    (buildHints w { n with hints := [], pixmap := none }).get "desktop-entry" =
      if w.desktopFileName = "" then none
      else some (.str (if endsWith w.desktopFileName ".desktop" then chop w.desktopFileName 8
                       else w.desktopFileName)) := by
  unfold buildHints
  simp only [List.foldl_nil]
  rw [QVariantMap.get_ite_set_ne _ _ _ _ _ (by decide)]
  by_cases hd : w.desktopFileName = ""
  · have hd1 : ¬ w.desktopFileName ≠ "" := fun h => h hd
    rw [if_pos hd, if_neg hd1]
    rw [QVariantMap.get_ite_set_ne _ _ _ _ _ (by decide),
      QVariantMap.get_ite_set_ne _ _ _ _ _ (by decide),
      QVariantMap.get_ite_set_ne _ _ _ _ _ (by decide),
      QVariantMap.get_ite_set_ne _ _ _ _ _ (by decide)]
    rfl
  · rw [if_neg hd, if_pos hd, QVariantMap.get_set_self]

theorem computed_transient (w : World) (n : KNotification) :
    (buildHints w { n with hints := [], pixmap := none }).get "transient" =
      if n.persistent then none else some (.bool true) := by
  unfold buildHints
  simp only [List.foldl_nil]
  rw [QVariantMap.get_ite_set_ne _ _ _ _ _ (by decide),
    QVariantMap.get_ite_set_ne _ _ _ _ _ (by decide)]
  cases hp : n.persistent with
  | true =>
    simp only [Bool.not_true, Bool.false_eq_true, if_false, if_true]
    rw [QVariantMap.get_ite_set_ne _ _ _ _ _ (by decide),
      QVariantMap.get_ite_set_ne _ _ _ _ _ (by decide),
      QVariantMap.get_ite_set_ne _ _ _ _ _ (by decide)]
    rfl
  | false =>
    simp only [Bool.not_false, if_true, Bool.false_eq_true, if_false]
    rw [QVariantMap.get_set_self]

theorem computed_skipGrouping (w : World) (n : KNotification) :
    (buildHints w { n with hints := [], pixmap := none }).get "x-kde-skipGrouping" =
      if n.skipGrouping then some (.int 1) else none := by
  unfold buildHints
  simp only [List.foldl_nil]
  rw [QVariantMap.get_ite_set_ne _ _ _ _ _ (by decide),
    QVariantMap.get_ite_set_ne _ _ _ _ _ (by decide),
    QVariantMap.get_ite_set_ne _ _ _ _ _ (by decide)]
  cases hp : n.skipGrouping with
  | true =>
    simp only [if_true]
    rw [QVariantMap.get_set_self]
  | false =>
    simp only [Bool.false_eq_true, if_false]
    rw [QVariantMap.get_ite_set_ne _ _ _ _ _ (by decide),
      QVariantMap.get_ite_set_ne _ _ _ _ _ (by decide)]
    rfl

theorem computed_eventId (w : World) (n : KNotification) :
    (buildHints w { n with hints := [], pixmap := none }).get "x-kde-eventId" =
      if n.eventId = "" then none else some (.str n.eventId) := by
  unfold buildHints
  simp only [List.foldl_nil]
  rw [QVariantMap.get_ite_set_ne _ _ _ _ _ (by decide),
    QVariantMap.get_ite_set_ne _ _ _ _ _ (by decide),
    QVariantMap.get_ite_set_ne _ _ _ _ _ (by decide),
    QVariantMap.get_ite_set_ne _ _ _ _ _ (by decide)]
  by_cases hd : n.eventId = ""
  · have hd1 : ¬ n.eventId ≠ "" := fun h => h hd
    rw [if_pos hd, if_neg hd1, QVariantMap.get_ite_set_ne _ _ _ _ _ (by decide)]
    rfl
  · rw [if_neg hd, if_pos hd, QVariantMap.get_set_self]

theorem computed_appname (w : World) (n : KNotification) :
    (buildHints w { n with hints := [], pixmap := none }).get "x-kde-appname" =
      if n.appName = "" then none else some (.str n.appName) := by
  unfold buildHints
  simp only [List.foldl_nil]
  rw [QVariantMap.get_ite_set_ne _ _ _ _ _ (by decide),
    QVariantMap.get_ite_set_ne _ _ _ _ _ (by decide),
    QVariantMap.get_ite_set_ne _ _ _ _ _ (by decide),
    QVariantMap.get_ite_set_ne _ _ _ _ _ (by decide),
    QVariantMap.get_ite_set_ne _ _ _ _ _ (by decide)]
  by_cases hd : n.appName = ""
  · have hd1 : ¬ n.appName ≠ "" := fun h => h hd
    rw [if_pos hd, if_neg hd1]
    rfl
  · rw [if_neg hd, if_pos hd, QVariantMap.get_set_self]

/-! ## C12 -/

/-- C12: when the own hint bag of the request has no key "urgency", the hint map of
the `Notify` call has no "urgency" entry for the default urgency, and maps
"urgency" to 0 for low, 1 for normal, 1 for high and 2 for critical. -/
theorem urgency_hint (w : World) (caps : List String) (updateId : Nat)
    (n : KNotification) (c : KNotifyConfig)
    (hb : ∀ kv ∈ n.hints, kv.1 ≠ "urgency") :
    (buildNotifyArgs w caps updateId n c).hintsMap.get "urgency" =
      match n.urgency with
      | .DefaultUrgency => none
      | .LowUrgency => some (.int 0)
      | .NormalUrgency => some (.int 1)
      | .HighUrgency => some (.int 1)
      | .CriticalUrgency => some (.int 2) := by
  have h1 : (buildNotifyArgs w caps updateId n c).hintsMap = buildHints w n := rfl
  rw [h1, buildHints_get_of_not_bag w n "urgency" hb (Or.inr (by decide)), computed_urgency]
  cases n.urgency <;> rfl

/-- Witness of C12: the sample notification has normal urgency and an empty bag. -/
theorem urgency_hint_witness :
    (∀ kv ∈ (sampleNotification 1).hints, kv.1 ≠ "urgency")
    ∧ (buildNotifyArgs sampleWorld ["actions"] 0 (sampleNotification 1)
        sampleConfig).hintsMap.get "urgency" = some (.int 1) :=
  ⟨by simp [sampleNotification],
   urgency_hint sampleWorld ["actions"] 0 (sampleNotification 1) sampleConfig
     (by simp [sampleNotification])⟩

/-! ## C14 -/

theorem endsWith_append (t suffix : String) : endsWith (t ++ suffix) suffix = true := by
  unfold endsWith
  rw [List.isSuffixOf_iff_suffix, String.data_append]
  exact List.suffix_append _ _

theorem endsWith_split (s suffix : String) (h : endsWith s suffix = true) :
    ∃ t : String, s = t ++ suffix := by
  unfold endsWith at h
  rw [List.isSuffixOf_iff_suffix] at h
  obtain ⟨l, hl⟩ := h
  refine ⟨String.mk l, ?_⟩
  apply String.ext
  rw [String.data_append]
  exact hl.symm

theorem chop_append (t suffix : String) (k : Nat) (hk : suffix.data.length = k) :
    chop (t ++ suffix) k = t := by
  unfold chop
  apply String.ext
  simp only [String.data_append, List.length_append, hk, Nat.add_sub_cancel]
  exact List.take_left' rfl

/-- C14: when the own hint bag of the request has no key "desktop-entry", the hint
map of the `Notify` call has no "desktop-entry" entry for an empty desktop file
name; for a name `t ++ ".desktop"` the hint is `t`, the name without its last 8
characters, the suffix being removed once; for any other name the hint is the name
itself. -/
theorem desktop_entry_hint (w : World) (caps : List String) (updateId : Nat)
    (n : KNotification) (c : KNotifyConfig)
    (hb : ∀ kv ∈ n.hints, kv.1 ≠ "desktop-entry") :
    (w.desktopFileName = "" →
      (buildNotifyArgs w caps updateId n c).hintsMap.get "desktop-entry" = none)
    ∧ (∀ t : String, w.desktopFileName = t ++ ".desktop" →
        (buildNotifyArgs w caps updateId n c).hintsMap.get "desktop-entry" = some (.str t))
    ∧ (w.desktopFileName ≠ "" → (∀ t : String, w.desktopFileName ≠ t ++ ".desktop") →
        (buildNotifyArgs w caps updateId n c).hintsMap.get "desktop-entry" =
          some (.str w.desktopFileName))
    ∧ (w.desktopFileName ≠ "" →
        (buildNotifyArgs w caps updateId n c).hintsMap.get "desktop-entry" =
          some (.str (if endsWith w.desktopFileName ".desktop"
                      then String.mk (w.desktopFileName.data.take
                        (w.desktopFileName.data.length - 8))
                      else w.desktopFileName))) := by
  have h1 : (buildNotifyArgs w caps updateId n c).hintsMap = buildHints w n := rfl
  rw [h1, buildHints_get_of_not_bag w n "desktop-entry" hb (Or.inr (by decide)),
    computed_desktop_entry]
  refine ⟨?_, ?_, ?_, ?_⟩
  · intro he
    rw [if_pos he]
  · intro t ht
    have hne : ¬ w.desktopFileName = "" := by
      intro he
      rw [he] at ht
      have hl := congrArg String.length ht
      simp [String.length_append] at hl
      have h8 : ".desktop".length = 8 := by decide
      omega
    rw [if_neg hne, ht, endsWith_append, if_pos rfl, chop_append t ".desktop" 8 (by decide)]
  · intro hne hno
    rw [if_neg hne]
    cases he : endsWith w.desktopFileName ".desktop" with
    | false => simp
    | true =>
      obtain ⟨t, ht⟩ := endsWith_split _ _ he
      exact absurd ht (hno t)
  · intro hne
    rw [if_neg hne]
    rfl

/-- Witness of C14: the suffix is removed once. -/
theorem desktop_entry_hint_witness :
    (∀ kv ∈ (sampleNotification 1).hints, kv.1 ≠ "desktop-entry")
    ∧ (buildNotifyArgs (worldWithDesktopFile "org.app.Foo.desktop") [] 0
        (sampleNotification 1) sampleConfig).hintsMap.get "desktop-entry"
        = some (.str "org.app.Foo")
    ∧ (buildNotifyArgs (worldWithDesktopFile "x.desktop.desktop") [] 0
        (sampleNotification 1) sampleConfig).hintsMap.get "desktop-entry"
        = some (.str "x.desktop")
    ∧ (buildNotifyArgs (worldWithDesktopFile "") [] 0
        (sampleNotification 1) sampleConfig).hintsMap.get "desktop-entry" = none :=
  ⟨by simp [sampleNotification],
   (desktop_entry_hint (worldWithDesktopFile "org.app.Foo.desktop") [] 0
      (sampleNotification 1) sampleConfig (by simp [sampleNotification])).2.1
      "org.app.Foo" (by decide),
   (desktop_entry_hint (worldWithDesktopFile "x.desktop.desktop") [] 0
      (sampleNotification 1) sampleConfig (by simp [sampleNotification])).2.1
      "x.desktop" (by decide),
   (desktop_entry_hint (worldWithDesktopFile "") [] 0
      (sampleNotification 1) sampleConfig (by simp [sampleNotification])).1 (by decide)⟩

/-! ## C15 -/

/-- C15: for a request without image, whose own hint bag has distinct keys, the hint
map of the `Notify` call maps every key of the bag to the value of the bag; every
other key has the value the dispatcher computes, that is its value for the same
request with an empty bag: the application name, event id, skip-grouping flag,
transient flag, desktop entry and urgency as listed. -/
theorem hint_bag_overrides (w : World) (caps : List String) (updateId : Nat)
    (n : KNotification) (c : KNotifyConfig)
    (hp : n.pixmap = none) (hn : (n.hints.map Prod.fst).Nodup) :
    (∀ (k : String) (v : QVariant), (k, v) ∈ n.hints →
      (buildNotifyArgs w caps updateId n c).hintsMap.get k = some v)
    ∧ (∀ k : String, (∀ kv ∈ n.hints, kv.1 ≠ k) →
        (buildNotifyArgs w caps updateId n c).hintsMap.get k =
          (buildNotifyArgs w caps updateId { n with hints := [] } c).hintsMap.get k)
    ∧ ((buildNotifyArgs w caps updateId { n with hints := [] } c).hintsMap.get "x-kde-appname"
          = (if n.appName = "" then none else some (.str n.appName))
      ∧ (buildNotifyArgs w caps updateId { n with hints := [] } c).hintsMap.get "x-kde-eventId"
          = (if n.eventId = "" then none else some (.str n.eventId))
      ∧ (buildNotifyArgs w caps updateId { n with hints := [] } c).hintsMap.get
          "x-kde-skipGrouping" = (if n.skipGrouping then some (.int 1) else none)
      ∧ (buildNotifyArgs w caps updateId { n with hints := [] } c).hintsMap.get "transient"
          = (if n.persistent then none else some (.bool true))
      ∧ (buildNotifyArgs w caps updateId { n with hints := [] } c).hintsMap.get "desktop-entry"
          = (if w.desktopFileName = "" then none
             else some (.str (if endsWith w.desktopFileName ".desktop"
                              then chop w.desktopFileName 8 else w.desktopFileName)))
      ∧ (buildNotifyArgs w caps updateId { n with hints := [] } c).hintsMap.get "urgency"
          = (if urgencyValue n.urgency > -1 then some (.int (urgencyValue n.urgency))
             else none)) := by
  have h1 : ∀ m : KNotification, (buildNotifyArgs w caps updateId m c).hintsMap = buildHints w m :=
    fun _ => rfl
  have h0 : ({ n with hints := [] } : KNotification) = { n with hints := [], pixmap := none } := by
    cases n
    simp only [] at hp
    simp [hp]
  simp only [h1]
  refine ⟨?_, ?_, ?_⟩
  · intro k v hm
    unfold buildHints
    simp only [hp]
    exact QVariantMap.get_merge_of_mem n.hints k v hn hm _
  · intro k hk
    rw [buildHints_get_of_not_bag w n k hk (Or.inl hp), h0]
  · rw [h0]
    exact ⟨computed_appname w n, computed_eventId w n, computed_skipGrouping w n,
      computed_transient w n, computed_desktop_entry w n, computed_urgency w n⟩

/-- Witness of C15: the bag sets "urgency" to 2 on a notification of normal urgency;
the hint map carries 2, and the transient flag keeps its computed value. -/
theorem hint_bag_overrides_witness :
    (sampleNotificationWithBag.pixmap = none
      ∧ (sampleNotificationWithBag.hints.map Prod.fst).Nodup)
    ∧ (buildNotifyArgs sampleWorld [] 0 sampleNotificationWithBag
        sampleConfig).hintsMap.get "urgency" = some (.int 2)
    ∧ (buildNotifyArgs sampleWorld [] 0 sampleNotificationWithBag
        sampleConfig).hintsMap.get "transient" = some (.bool true) := by
  have hn : (sampleNotificationWithBag.hints.map Prod.fst).Nodup := by decide
  have ht := hint_bag_overrides sampleWorld [] 0 sampleNotificationWithBag sampleConfig rfl hn
  refine ⟨⟨rfl, hn⟩, ht.1 "urgency" (.int 2) (by decide), ?_⟩
  rw [ht.2.1 "transient" (by decide)]
  decide

/-! ## C16 -/

/-- C16: the timeout of the `Notify` call is 0 for a persistent request and -1
otherwise; when the own hint bag has no key "transient", the hint map has
"transient" set to true exactly for a request that is not persistent, so the
hint is present if and only if the timeout is -1. -/
theorem timeout_and_transient (w : World) (caps : List String) (updateId : Nat)
    (n : KNotification) (c : KNotifyConfig)
    (hb : ∀ kv ∈ n.hints, kv.1 ≠ "transient") :
    (buildNotifyArgs w caps updateId n c).timeout = (if n.persistent then 0 else -1)
    ∧ (buildNotifyArgs w caps updateId n c).hintsMap.get "transient" =
        (if n.persistent then none else some (.bool true))
    ∧ ((buildNotifyArgs w caps updateId n c).hintsMap.get "transient" = some (.bool true)
        ↔ n.persistent = false)
    ∧ (((buildNotifyArgs w caps updateId n c).hintsMap.get "transient").isSome = true
        ↔ (buildNotifyArgs w caps updateId n c).timeout = -1) := by
  have h1 : (buildNotifyArgs w caps updateId n c).hintsMap = buildHints w n := rfl
  have h2 : (buildNotifyArgs w caps updateId n c).timeout = (if n.persistent then 0 else -1) :=
    rfl
  rw [h1, h2, buildHints_get_of_not_bag w n "transient" hb (Or.inr (by decide)),
    computed_transient]
  cases n.persistent <;> simp

/-- Witness of C16: the sample notification is not persistent. -/
theorem timeout_and_transient_witness :
    (∀ kv ∈ (sampleNotification 1).hints, kv.1 ≠ "transient")
    ∧ (buildNotifyArgs sampleWorld [] 0 (sampleNotification 1) sampleConfig).timeout = -1
    ∧ (buildNotifyArgs sampleWorld [] 0 (sampleNotification 1)
        sampleConfig).hintsMap.get "transient" = some (.bool true) :=
  ⟨by simp [sampleNotification],
   (timeout_and_transient sampleWorld [] 0 (sampleNotification 1) sampleConfig
      (by simp [sampleNotification])).1,
   (timeout_and_transient sampleWorld [] 0 (sampleNotification 1) sampleConfig
      (by simp [sampleNotification])).2.1⟩

/-! ## C13 -/

/-- The reverse lookup returns the default key when no handle maps to `r`. -/
theorem HandleTable.key_none (t : HandleTable) (r : Ptr) (d : Nat)
    (hno : ∀ h, (h, some r) ∉ t) : t.key r d = d := by
  unfold HandleTable.key
  cases hq : List.find? (fun e => e.2 == some r) t with
  | none => rfl
  | some e =>
    have h1 := List.find?_some hq
    have h2 := List.mem_of_find?_eq_some hq
    have h3 : e.2 = some r := by simpa using h1
    have h4 : e = (e.1, some r) := by
      cases e; simp at h3; simp [h3]
    rw [h4] at h2
    exact absurd h2 (hno e.1)

/-- The reverse lookup returns a handle that maps to `r`, or the default key when
there is none. -/
theorem HandleTable.key_spec (t : HandleTable) (r : Ptr) (d : Nat) :
    (t.key r d, some r) ∈ t ∨ (t.key r d = d ∧ ∀ h, (h, some r) ∉ t) := by
  unfold HandleTable.key
  cases hq : List.find? (fun e => e.2 == some r) t with
  | none =>
    right
    refine ⟨rfl, ?_⟩
    intro h hm
    have := List.find?_eq_none.mp hq (h, some r) hm
    simp at this
  | some e =>
    left
    have h1 := List.find?_some hq
    have h2 := List.mem_of_find?_eq_some hq
    have h3 : e.2 = some r := by simpa using h1
    have h4 : e = (e.1, some r) := by
      cases e; simp at h3; simp [h3]
    rw [h4] at h2
    exact h2

/-- C13: when no handle maps to `r`, `update` issues no wire call (no effect at all),
`sendNotificationToServer` returns false, and the state is unchanged. -/
theorem update_without_handle (w : World) (s : State) (r : Ptr) (c : KNotifyConfig)
    (hno : ∀ h, (h, some r) ∉ s.notifications) :
    sendNotificationToServer w s r c true = (false, [])
    ∧ update w s r c = (s, [])
    ∧ wireTrace (update w s r c).2 = [] := by
  have hk : s.notifications.key r 0 = 0 := HandleTable.key_none _ r 0 hno
  have h1 : sendNotificationToServer w s r c true = (false, []) := by
    unfold sendNotificationToServer
    simp [hk]
  refine ⟨h1, ?_, ?_⟩
  · unfold update
    rw [h1]
  · unfold update
    rw [h1]
    rfl

/-- Witness of C13: notification `1` waits in the queue of the dirty dispatcher and
has no handle. -/
theorem update_without_handle_witness :
    ((notify sampleWorld State.init 1 sampleConfig).1.notificationQueue = [(1, sampleConfig)]
      ∧ (notify sampleWorld State.init 1 sampleConfig).1.dbusServiceCapCacheDirty = true
      ∧ ∀ h, (h, some 1) ∉ (notify sampleWorld State.init 1 sampleConfig).1.notifications)
    ∧ update sampleWorld (notify sampleWorld State.init 1 sampleConfig).1 1 sampleConfig =
        ((notify sampleWorld State.init 1 sampleConfig).1, []) :=
  ⟨⟨by decide, by decide, by intro h hm; simp [notify_notifications, State.init] at hm⟩,
   (update_without_handle sampleWorld (notify sampleWorld State.init 1 sampleConfig).1 1
      sampleConfig (by intro h hm; simp [notify_notifications, State.init] at hm)).2.1⟩

/-! ## C17 -/

theorem HandleTable.find_of_not_contains (t : HandleTable) (k : Nat)
    (hc : t.contains k = false) : t.find k = none := by
  induction t with
  | nil => rfl
  | cons e rest ih =>
    unfold HandleTable.contains at hc ih
    rw [List.any_cons, Bool.or_eq_false_iff] at hc
    rw [HandleTable.find_cons]
    have hne : ¬ e.1 = k := by simpa using hc.1
    rw [if_neg hne]
    exact ih hc.2

/-- C17: for a handle that is not a key of the handle table, `ActionInvoked` and
`NotificationClosed` leave the whole state unchanged and have no effect: no signal
and no wire call. -/
theorem unknown_handle_ignored (w : World) (s : State) (h : Nat) (key : String)
    (reason : Nat) (hu : s.notifications.contains h = false) :
    onNotificationActionInvoked w s h key = (s, [])
    ∧ onNotificationClosed s h reason = (s, []) := by
  have hf := HandleTable.find_of_not_contains _ _ hu
  constructor
  · unfold onNotificationActionInvoked
    rw [hf]
  · unfold onNotificationClosed
    rw [hf]

/-- Witness of C17: handle `6` is not in the table of `liveState`. -/
theorem unknown_handle_ignored_witness :
    liveState.notifications.contains 6 = false
    ∧ onNotificationActionInvoked sampleWorld liveState 6 "1" = (liveState, [])
    ∧ onNotificationClosed liveState 6 2 = (liveState, []) :=
  ⟨by decide, unknown_handle_ignored sampleWorld liveState 6 "1" 2 (by decide)⟩

/-! ## C20 -/

/-- C20: every effect of `sendNotificationToServer` for `r`, with `update` true or
false, is a `Notify` call whose replace handle is a handle that maps to `r` in the
handle table, or 0 when no handle maps to `r`; a creation call (`update` false) is
always issued; and `notify` on a clean cache for a request whose only handle is `h`
and whose id is not among the handles sends replace handle `h`. -/
theorem replace_handle_is_registered (w : World) (s : State) (r : Ptr)
    (c : KNotifyConfig) (u : Bool) :
    (∀ e ∈ (sendNotificationToServer w s r c u).2, ∃ args : NotifyArgs,
        e = Effect.notifyCall r args
        ∧ ((args.updateId, some r) ∈ s.notifications
            ∨ (args.updateId = 0 ∧ ∀ h, (h, some r) ∉ s.notifications)))
    ∧ (sendNotificationToServer w s r c false =
        (true, [Effect.notifyCall r (buildNotifyArgs w s.popupServerCapabilities
          (s.notifications.key r 0) (w.obj r) c)]))
    ∧ (s.notifications.key r 0 ≠ 0 →
        sendNotificationToServer w s r c true =
          (true, [Effect.notifyCall r (buildNotifyArgs w s.popupServerCapabilities
            (s.notifications.key r 0) (w.obj r) c)]))
    ∧ (∀ h : Nat, s.dbusServiceCapCacheDirty = false →
        s.notifications.contains (toUInt (w.obj r).id) = false →
        (h, some r) ∈ s.notifications → (∀ h1, (h1, some r) ∈ s.notifications → h1 = h) →
        notify w s r c =
          (s, [Effect.notifyCall r
            (buildNotifyArgs w s.popupServerCapabilities h (w.obj r) c)]))
    ∧ (update sampleWorld liveState 1 sampleConfig).2 =
        [Effect.notifyCall 1
          (buildNotifyArgs sampleWorld ["actions"] 5 (sampleNotification 1) sampleConfig)] := by
  refine ⟨?_, ?_, ?_, ?_, by decide⟩
  · intro e he
    unfold sendNotificationToServer at he
    simp only [] at he
    split at he
    · simp at he
    · simp only [List.mem_singleton] at he
      exact ⟨_, he, HandleTable.key_spec s.notifications r 0⟩
  · unfold sendNotificationToServer
    simp
  · intro hk
    unfold sendNotificationToServer
    simp [hk]
  · intro h hc hs hm hu
    rw [notify_clean w s r c hc, HandleTable.key_unique _ r h 0 hm hu]
    simp [hs]

/-! ## C18 -/

theorem close_dirty_flag (s : State) (n : Ptr) :
    (close s n).1.dbusServiceCapCacheDirty = s.dbusServiceCapCacheDirty := by
  unfold close
  simp only []
  split <;> rfl

theorem onNotificationActionInvoked_dirty_flag (w : World) (s : State) (h : Nat)
    (key : String) :
    (onNotificationActionInvoked w s h key).1.dbusServiceCapCacheDirty =
      s.dbusServiceCapCacheDirty := by
  unfold onNotificationActionInvoked
  split
  · rfl
  · split <;> rfl
  · rfl

theorem onNotificationClosed_dirty_flag (s : State) (h c : Nat) :
    (onNotificationClosed s h c).1.dbusServiceCapCacheDirty = s.dbusServiceCapCacheDirty := by
  unfold onNotificationClosed
  split
  · rfl
  · split <;> rfl

/-- No event makes a clean cache dirty. -/
theorem step_stays_clean (w : World) (y y1 : Sys) (e : Event)
    (hs : step w y e = some y1) (hc : y.st.dbusServiceCapCacheDirty = false) :
    y1.st.dbusServiceCapCacheDirty = false := by
  cases e with
  | notify n c =>
    simp only [step, Option.some.injEq] at hs
    subst hs
    simp only [Sys.absorb, notify_dirty_flag]
    exact hc
  | update n c =>
    simp only [step, Option.some.injEq] at hs
    subst hs
    exact hc
  | close n =>
    simp only [step, Option.some.injEq] at hs
    subst hs
    simp only [Sys.absorb, close_dirty_flag]
    exact hc
  | capabilitiesReply caps =>
    simp only [step] at hs
    split at hs
    · simp at hs
    · simp only [Option.some.injEq] at hs
      subst hs
      simp only [Sys.absorb, onCapabilitiesReply_eq]
  | notifyReply call handle =>
    simp only [step] at hs
    split at hs
    · simp at hs
    · split at hs
      · simp at hs
      · simp only [Option.some.injEq] at hs
        subst hs
        exact hc
  | actionInvoked handle key =>
    simp only [step, Option.some.injEq] at hs
    subst hs
    simp only [Sys.absorb, onNotificationActionInvoked_dirty_flag]
    exact hc
  | notificationClosed handle reason =>
    simp only [step, Option.some.injEq] at hs
    subst hs
    simp only [Sys.absorb, onNotificationClosed_dirty_flag]
    exact hc

theorem run_stays_clean (w : World) (evs : List Event) :
    ∀ y y1 : Sys, run w y evs = some y1 → y.st.dbusServiceCapCacheDirty = false →
      y1.st.dbusServiceCapCacheDirty = false := by
  induction evs with
  | nil =>
    intro y y1 hr hc
    simp only [run, Option.some.injEq] at hr
    subst hr
    exact hc
  | cons e rest ih =>
    intro y y1 hr hc
    simp only [run] at hr
    cases hs : step w y e with
    | none => rw [hs] at hr; simp at hr
    | some y2 =>
      rw [hs] at hr
      exact ih y2 y1 hr (step_stays_clean w y y2 e hs hc)

/-- An operation without `Notify` call that keeps the handle table empty keeps the
system quiet. -/
theorem quiet_absorb (y : Sys) (res : State × List Effect)
    (hq : y.st.notifications = [] ∧ y.pendingNotify = [] ∧
      ∀ (n : Ptr) (args : NotifyArgs), Effect.notifyCall n args ∉ y.trace)
    (ht : res.1.notifications = [])
    (he : ∀ (n : Ptr) (args : NotifyArgs), Effect.notifyCall n args ∉ res.2) :
    Quiet (y.absorb res) := by
  intro _
  refine ⟨ht, ?_, ?_⟩
  · simp only [Sys.absorb, hq.2.1, List.nil_append]
    rw [List.filterMap_eq_nil_iff]
    intro e hm
    cases e with
    | notifyCall n args => exact absurd hm (he n args)
    | getCapabilities => rfl
    | closeNotification _ => rfl
    | finished _ => rfl
    | actionInvoked _ _ => rfl
    | closeRequest _ => rfl
  · intro n args hm
    simp only [Sys.absorb, List.mem_append] at hm
    rcases hm with h1 | h1
    · exact hq.2.2 n args h1
    · exact he n args h1

theorem notify_dirty_empty (w : World) (s : State) (n : Ptr) (c : KNotifyConfig)
    (hd : s.dbusServiceCapCacheDirty = true) (ht : s.notifications = []) :
    notify w s n c =
      ({ s with notificationQueue := s.notificationQueue ++ [(n, c)] },
       [Effect.getCapabilities]) := by
  rw [notify_dirty w s n c hd, ht]
  simp [HandleTable.contains]

theorem update_empty (w : World) (s : State) (n : Ptr) (c : KNotifyConfig)
    (ht : s.notifications = []) : update w s n c = (s, []) := by
  unfold update sendNotificationToServer
  simp [ht, HandleTable.key]

theorem close_empty (s : State) (n : Ptr) (ht : s.notifications = []) :
    close s n = (s, []) := by
  unfold close
  simp [ht, HandleTable.key]

theorem onNotificationActionInvoked_empty (w : World) (s : State) (h : Nat) (key : String)
    (ht : s.notifications = []) : onNotificationActionInvoked w s h key = (s, []) := by
  unfold onNotificationActionInvoked
  simp [ht, HandleTable.find]

theorem onNotificationClosed_empty (s : State) (h c : Nat) (ht : s.notifications = []) :
    onNotificationClosed s h c = (s, []) := by
  unfold onNotificationClosed
  simp [ht, HandleTable.find]

theorem quiet_step (w : World) (y y1 : Sys) (e : Event) (hq : Quiet y)
    (hs : step w y e = some y1) : Quiet y1 := by
  cases hd : y.st.dbusServiceCapCacheDirty with
  | false =>
    intro hd1
    rw [step_stays_clean w y y1 e hs hd] at hd1
    cases hd1
  | true =>
    have hy := hq hd
    cases e with
    | notify n c =>
      simp only [step, Option.some.injEq] at hs
      subst hs
      rw [notify_dirty_empty w y.st n c hd hy.1]
      exact quiet_absorb y _ hy hy.1 (by intro n args hm; simp at hm)
    | update n c =>
      simp only [step, Option.some.injEq] at hs
      subst hs
      rw [update_empty w y.st n c hy.1]
      exact quiet_absorb y _ hy hy.1 (by intro n args hm; simp at hm)
    | close n =>
      simp only [step, Option.some.injEq] at hs
      subst hs
      rw [close_empty y.st n hy.1]
      exact quiet_absorb y _ hy hy.1 (by intro n args hm; simp at hm)
    | capabilitiesReply caps =>
      simp only [step] at hs
      split at hs
      · simp at hs
      · simp only [Option.some.injEq] at hs
        subst hs
        intro hd1
        simp [Sys.absorb, onCapabilitiesReply_eq] at hd1
    | notifyReply call handle =>
      simp only [step] at hs
      split at hs
      · simp at hs
      · rw [hy.2.1] at hs
        simp at hs
    | actionInvoked handle key =>
      simp only [step, Option.some.injEq] at hs
      subst hs
      rw [onNotificationActionInvoked_empty w y.st handle key hy.1]
      exact quiet_absorb y _ hy hy.1 (by intro n args hm; simp at hm)
    | notificationClosed handle reason =>
      simp only [step, Option.some.injEq] at hs
      subst hs
      rw [onNotificationClosed_empty y.st handle reason hy.1]
      exact quiet_absorb y _ hy hy.1 (by intro n args hm; simp at hm)

theorem quiet_run (w : World) (evs : List Event) :
    ∀ y y1 : Sys, Quiet y → run w y evs = some y1 → Quiet y1 := by
  induction evs with
  | nil =>
    intro y y1 hq hr
    simp only [run, Option.some.injEq] at hr
    subst hr
    exact hq
  | cons e rest ih =>
    intro y y1 hq hr
    simp only [run] at hr
    cases hs : step w y e with
    | none => rw [hs] at hr; simp at hr
    | some y2 =>
      rw [hs] at hr
      exact ih y2 y1 (quiet_step w y y2 e hq hs) hr

theorem quiet_init : Quiet Sys.init := by
  intro _
  exact ⟨rfl, rfl, by intro n args hm; simp [Sys.init] at hm⟩

/-- Every event that `step` accepts is accepted by `stepAnyHandle`, with the same
result. -/
theorem stepAnyHandle_of_step (w : World) (y y1 : Sys) (e : Event)
    (hs : step w y e = some y1) : stepAnyHandle w y e = some y1 := by
  cases e with
  | notify n c => exact hs
  | update n c => exact hs
  | close n => exact hs
  | capabilitiesReply caps =>
    simp only [step] at hs
    split at hs
    · simp at hs
    · exact hs
  | notifyReply call handle =>
    simp only [step] at hs
    split at hs
    · simp at hs
    · exact hs
  | actionInvoked handle key => exact hs
  | notificationClosed handle reason => exact hs

theorem runAnyHandle_of_run (w : World) (evs : List Event) :
    ∀ y y1 : Sys, run w y evs = some y1 → runAnyHandle w y evs = some y1 := by
  induction evs with
  | nil => intro y y1 hr; exact hr
  | cons e rest ih =>
    intro y y1 hr
    simp only [run] at hr
    cases hs : step w y e with
    | none => rw [hs] at hr; simp at hr
    | some y2 =>
      rw [hs] at hr
      simp only [runAnyHandle, stepAnyHandle_of_step w y y2 e hs]
      exact ih y2 y1 hr

/-- No event makes a clean cache dirty, whatever handle a reply carries. -/
theorem stepAnyHandle_stays_clean (w : World) (y y1 : Sys) (e : Event)
    (hs : stepAnyHandle w y e = some y1) (hc : y.st.dbusServiceCapCacheDirty = false) :
    y1.st.dbusServiceCapCacheDirty = false := by
  cases e with
  | notify n c =>
    simp only [stepAnyHandle, Option.some.injEq] at hs
    subst hs
    simp only [Sys.absorb, notify_dirty_flag]
    exact hc
  | update n c =>
    simp only [stepAnyHandle, Option.some.injEq] at hs
    subst hs
    exact hc
  | close n =>
    simp only [stepAnyHandle, Option.some.injEq] at hs
    subst hs
    simp only [Sys.absorb, close_dirty_flag]
    exact hc
  | capabilitiesReply caps =>
    simp only [stepAnyHandle, Option.some.injEq] at hs
    subst hs
    simp only [Sys.absorb, onCapabilitiesReply_eq]
  | notifyReply call handle =>
    simp only [stepAnyHandle] at hs
    split at hs
    · simp at hs
    · simp only [Option.some.injEq] at hs
      subst hs
      exact hc
  | actionInvoked handle key =>
    simp only [stepAnyHandle, Option.some.injEq] at hs
    subst hs
    simp only [Sys.absorb, onNotificationActionInvoked_dirty_flag]
    exact hc
  | notificationClosed handle reason =>
    simp only [stepAnyHandle, Option.some.injEq] at hs
    subst hs
    simp only [Sys.absorb, onNotificationClosed_dirty_flag]
    exact hc

theorem runAnyHandle_stays_clean (w : World) (evs : List Event) :
    ∀ y y1 : Sys, runAnyHandle w y evs = some y1 → y.st.dbusServiceCapCacheDirty = false →
      y1.st.dbusServiceCapCacheDirty = false := by
  induction evs with
  | nil =>
    intro y y1 hr hc
    simp only [runAnyHandle, Option.some.injEq] at hr
    subst hr
    exact hc
  | cons e rest ih =>
    intro y y1 hr hc
    simp only [runAnyHandle] at hr
    cases hs : stepAnyHandle w y e with
    | none => rw [hs] at hr; simp at hr
    | some y2 =>
      rw [hs] at hr
      exact ih y2 y1 hr (stepAnyHandle_stays_clean w y y2 e hs hc)

theorem quiet_stepAnyHandle (w : World) (y y1 : Sys) (e : Event) (hq : Quiet y)
    (hs : stepAnyHandle w y e = some y1) : Quiet y1 := by
  cases hd : y.st.dbusServiceCapCacheDirty with
  | false =>
    intro hd1
    rw [stepAnyHandle_stays_clean w y y1 e hs hd] at hd1
    cases hd1
  | true =>
    have hy := hq hd
    cases e with
    | notify n c =>
      simp only [stepAnyHandle, Option.some.injEq] at hs
      subst hs
      rw [notify_dirty_empty w y.st n c hd hy.1]
      exact quiet_absorb y _ hy hy.1 (by intro n args hm; simp at hm)
    | update n c =>
      simp only [stepAnyHandle, Option.some.injEq] at hs
      subst hs
      rw [update_empty w y.st n c hy.1]
      exact quiet_absorb y _ hy hy.1 (by intro n args hm; simp at hm)
    | close n =>
      simp only [stepAnyHandle, Option.some.injEq] at hs
      subst hs
      rw [close_empty y.st n hy.1]
      exact quiet_absorb y _ hy hy.1 (by intro n args hm; simp at hm)
    | capabilitiesReply caps =>
      simp only [stepAnyHandle, Option.some.injEq] at hs
      subst hs
      intro hd1
      simp [Sys.absorb, onCapabilitiesReply_eq] at hd1
    | notifyReply call handle =>
      simp only [stepAnyHandle] at hs
      rw [hy.2.1] at hs
      simp at hs
    | actionInvoked handle key =>
      simp only [stepAnyHandle, Option.some.injEq] at hs
      subst hs
      rw [onNotificationActionInvoked_empty w y.st handle key hy.1]
      exact quiet_absorb y _ hy hy.1 (by intro n args hm; simp at hm)
    | notificationClosed handle reason =>
      simp only [stepAnyHandle, Option.some.injEq] at hs
      subst hs
      rw [onNotificationClosed_empty y.st handle reason hy.1]
      exact quiet_absorb y _ hy hy.1 (by intro n args hm; simp at hm)

theorem quiet_runAnyHandle (w : World) (evs : List Event) :
    ∀ y y1 : Sys, Quiet y → runAnyHandle w y evs = some y1 → Quiet y1 := by
  induction evs with
  | nil =>
    intro y y1 hq hr
    simp only [runAnyHandle, Option.some.injEq] at hr
    subst hr
    exact hq
  | cons e rest ih =>
    intro y y1 hq hr
    simp only [runAnyHandle] at hr
    cases hs : stepAnyHandle w y e with
    | none => rw [hs] at hr; simp at hr
    | some y2 =>
      rw [hs] at hr
      exact ih y2 y1 (quiet_stepAnyHandle w y y2 e hq hs) hr

/-- C18: in every state reached from the initial state by `notify`, `update` and
`close` calls, capability replies, daemon signals and `Notify` replies that answer
an outstanding `Notify` call with any handle whatever: as long as the cache is
dirty no `Notify` call has been issued, the handle table is empty and no reply is
awaited; in such a state `notify` issues only `GetCapabilities` and `update`, which
does not test the dirty flag, issues nothing; the `Notify` calls of a capability
reply are those of `notify` run after the flag has been cleared; and from a clean
cache every such run ends with a clean cache. -/
theorem no_notify_call_while_dirty (w : World) (evs : List Event) (y : Sys)
    (hr : runAnyHandle w Sys.init evs = some y) :
    (y.st.dbusServiceCapCacheDirty = true →
      (∀ (n : Ptr) (args : NotifyArgs), Effect.notifyCall n args ∉ y.trace)
      ∧ y.st.notifications = [] ∧ y.pendingNotify = []
      ∧ (∀ (n : Ptr) (c : KNotifyConfig),
          (notify w y.st n c).2 = [Effect.getCapabilities] ∧ (update w y.st n c).2 = []))
    ∧ (∀ caps : List String,
        (onCapabilitiesReply w y.st caps).2 =
          (y.st.notificationQueue.map (fun e =>
            (notify w { y.st with popupServerCapabilities := caps,
                                  dbusServiceCapCacheDirty := false } e.1 e.2).2)).flatten)
    ∧ (y.st.dbusServiceCapCacheDirty = false →
        ∀ (evs2 : List Event) (y2 : Sys), runAnyHandle w y evs2 = some y2 →
          y2.st.dbusServiceCapCacheDirty = false) := by
  have hq := quiet_runAnyHandle w evs Sys.init y quiet_init hr
  refine ⟨?_, ?_, ?_⟩
  · intro hd
    have hy := hq hd
    refine ⟨hy.2.2, hy.1, hy.2.1, ?_⟩
    intro n c
    rw [notify_dirty_empty w y.st n c hd hy.1, update_empty w y.st n c hy.1]
    exact ⟨rfl, rfl⟩
  · intro caps
    rw [onCapabilitiesReply_eq]
  · intro hc evs2 y2 hr2
    exact runAnyHandle_stays_clean w evs2 y y2 hr2 hc

/-- Witness of C18: after two `notify` calls and an `update` the cache is still dirty
and the trace holds the two capability queries only; from the live system an
`update` answered with the replaced handle `5`, a `Notify` reply that `step` does
not accept, then `close` and `NotificationClosed` leave the cache clean. -/
theorem no_notify_call_while_dirty_witness :
    (runAnyHandle sampleWorld Sys.init
        [.notify 1 sampleConfig, .notify 2 sampleConfig, .update 1 sampleConfig]).map
        (fun y => (y.st.dbusServiceCapCacheDirty, y.trace))
      = some (true, [Effect.getCapabilities, Effect.getCapabilities])
    ∧ runAnyHandle sampleWorld Sys.init
        [.notify 1 sampleConfig, .capabilitiesReply ["actions"], .notifyReply 0 5]
      = some liveSys
    ∧ run sampleWorld liveSys [.update 1 sampleConfig, .notifyReply 0 5] = none
    ∧ (runAnyHandle sampleWorld liveSys [.update 1 sampleConfig, .notifyReply 0 5, .close 1,
          .notificationClosed 5 2]).map (fun y => y.st.dbusServiceCapCacheDirty)
      = some false := by
  have h := no_notify_call_while_dirty sampleWorld
    [.notify 1 sampleConfig, .capabilitiesReply ["actions"], .notifyReply 0 5] liveSys
    rfl
  refine ⟨rfl, rfl, rfl, ?_⟩
  cases hrun : runAnyHandle sampleWorld liveSys [.update 1 sampleConfig, .notifyReply 0 5,
      .close 1, .notificationClosed 5 2] with
  | none => exact absurd hrun (by decide)
  | some y2 =>
    simp only [Option.map_some', Option.some.injEq]
    exact h.2.2 rfl _ y2 hrun

/-! ## C19 -/

/-- C19 (as stated, refuted): notification `1` is on screen under handle `5` and
`update` issues a `Notify` call replacing `5`. When the reply carries handle `6`,
the table gains the entry for `6`. When `NotificationClosed` for `5` empties the
table before the reply, the reply with handle `5` puts the entry back. -/
theorem update_reply_changes_table :
    (run sampleWorld Sys.init
        [.notify 1 sampleConfig, .capabilitiesReply ["actions"], .notifyReply 0 5,
         .update 1 sampleConfig]).map (fun y => (y.st.notifications, y.pendingNotify))
      = some ([(5, some 1)], [(1, 5)])
    ∧ (run sampleWorld Sys.init
        [.notify 1 sampleConfig, .capabilitiesReply ["actions"], .notifyReply 0 5,
         .update 1 sampleConfig, .notifyReply 0 6]).map (fun y => y.st.notifications)
      = some [(6, some 1), (5, some 1)]
    ∧ (run sampleWorld Sys.init
        [.notify 1 sampleConfig, .capabilitiesReply ["actions"], .notifyReply 0 5,
         .update 1 sampleConfig, .notificationClosed 5 3]).map
          (fun y => (y.st.notifications, y.pendingNotify,
            (onNotifyReply y.st 5 1).notifications))
      = some ([], [(1, 5)], [(5, some 1)]) :=
  ⟨rfl, rfl, rfl⟩

/-- C19 (amended): the reply of a `Notify` call registers the returned handle for the
notification of the call, whether `notify` or `update` issued it: afterwards the
handle maps to that notification and every other handle maps as before, queue and
capability cache are unchanged; when the returned handle already maps to the
notification, as for an update whose handle is still registered, every lookup is
unchanged. A call issued by `update` creates such a reply watcher. -/
theorem notify_reply_registers_handle (s : State) (h : Nat) (r : Ptr) :
    (onNotifyReply s h r).notifications.find h = some (some r)
    ∧ (∀ h1, h1 ≠ h → (onNotifyReply s h r).notifications.find h1 = s.notifications.find h1)
    ∧ (s.notifications.find h = some (some r) →
        ∀ h1, (onNotifyReply s h r).notifications.find h1 = s.notifications.find h1)
    ∧ (onNotifyReply s h r).notificationQueue = s.notificationQueue
    ∧ (onNotifyReply s h r).popupServerCapabilities = s.popupServerCapabilities
    ∧ (onNotifyReply s h r).dbusServiceCapCacheDirty = s.dbusServiceCapCacheDirty
    ∧ (∀ (w : World) (c : KNotifyConfig), s.notifications.key r 0 ≠ 0 →
        (update w s r c).2.filterMap Effect.watcher = [(r, s.notifications.key r 0)]) := by
  have h1 : (onNotifyReply s h r).notifications.find h = some (some r) := by
    simp [onNotifyReply, HandleTable.insert, HandleTable.find_cons]
  have h2 : ∀ h1, h1 ≠ h →
      (onNotifyReply s h r).notifications.find h1 = s.notifications.find h1 := by
    intro k hne
    simp only [onNotifyReply, HandleTable.insert]
    rw [HandleTable.find_cons, if_neg (fun e => hne e.symm)]
    exact HandleTable.find_remove_ne _ _ _ hne
  refine ⟨h1, h2, ?_, rfl, rfl, rfl, ?_⟩
  · intro hl k
    by_cases hk : k = h
    · rw [hk, h1, hl]
    · exact h2 k hk
  · intro w c hk
    unfold update sendNotificationToServer
    simp [hk, Effect.watcher, buildNotifyArgs]

end NotifyByPopup
